import Mathlib

/-!
Verification model of snoowrap's lazy-pagination core (`Listing` / `More`)
and its request pipeline (`oauthRequest`), shallowly embedded from
`src/old_src/objects/Listing.ts`, `src/old_src/objects/More.ts`,
`src/old_src/request_handler.ts` and the constants module.

Modelling conventions:
* JavaScript numbers that matter to this code are integers, `NaN` or the two
  infinities; they are embedded as the inductive `JSNum` (no floating point
  arithmetic is exercised by the modelled paths).
* `null` / `undefined` / string continuation cursors are the inductive `Cursor`,
  keeping JS's distinction between the two nullish values (the code compares
  cursors with `=== null`).
* Mutable sub-objects that can be shared between a Listing and its clones
  (`_query`, `_cachedLookahead`, the `More` stub and its `children` array) live
  in an explicit store `Store`, so aliasing bugs would be observable.  The
  Listing's own array slots and scalar fields are written only on a Listing
  freshly built by `new Listing(...)` inside `_clone`, so they are modelled as
  record fields updated functionally.
* The network is an oracle: regular page fetches consume a script of
  `Page` responses (standing for `oauthRequest` + `_transform`, with the
  default identity transform), `api/info` bulk lookups map each id to an item,
  and the tree strategy (`fetchTree`, not the subject of any claim) is
  abstracted as an oracle call returning the already-materialized items.
* Promise resolution is value passing; `_promiseWrap` is modelled as the
  identity on the wrapped value (its behaviour with `proxies: false`, and the
  documented intent of the wrapper).
* Recursion in `fetchMore` is not structurally terminating in the source
  (e.g. an empty-array `_cachedLookahead` is truthy and makes the lookahead
  branch loop), so the embedding threads a fuel parameter; running out of fuel
  is the distinguished error `Err.outOfFuel`.
-/

namespace Snoo

/-- A JavaScript number as used by the pagination code: `NaN`, the two
infinities, or a (mathematical) integer. -/
inductive JSNum where
  | nan : JSNum
  | posInf : JSNum
  | negInf : JSNum
  | fin : Int → JSNum
  deriving DecidableEq, Repr

namespace JSNum

/-- `Number.isNaN(x)`. -/
def isNaN : JSNum → Bool
  | .nan => true
  | _ => false

/-- The JS comparison `x <= 0` (false on `NaN`). -/
def le0 : JSNum → Bool
  | .nan => false
  | .posInf => false
  | .negInf => true
  | .fin n => n ≤ 0

/-- Subtraction of a JS number and a nonnegative integer (an array length),
as in `options.amount - response.length`. -/
def subNat : JSNum → Nat → JSNum
  | .nan, _ => .nan
  | .posInf, _ => .posInf
  | .negInf, _ => .negInf
  | .fin n, k => .fin (n - k)

/-- `Math.min(x, m)` against a nonnegative integer constant `m`
(total: `NaN` propagates as in JS). -/
def minInt (x : JSNum) (m : Int) : JSNum :=
  match x with
  | .nan => .nan
  | .posInf => .fin m
  | .negInf => .negInf
  | .fin n => .fin (min n m)

/-- The JS comparison `k > x` for a nonnegative integer `k` (an array
length), as in `response.length > options.amount`. False on `NaN`. -/
def ltNat (x : JSNum) (k : Nat) : Bool :=
  match x with
  | .nan => false
  | .posInf => false
  | .negInf => true
  | .fin n => n < (k : Int)

/-- Number of elements denoted by this amount when used as an element count
starting from the front (as in `slice(0, amount)` / `splice(start)` index
coercion): `Infinity` means all, integers clamp at `0`. -/
def toCount (x : JSNum) (len : Nat) : Nat :=
  match x with
  | .nan => 0
  | .posInf => len
  | .negInf => 0
  | .fin n => min n.toNat len

end JSNum

/-- `Number.MAX_SAFE_INTEGER`. -/
def maxSafeInteger : Int := 9007199254740991

/-- A `before`/`after` continuation cursor slot of a Listing's `_query`:
JS `undefined`, JS `null`, or a string value. -/
inductive Cursor where
  | undef : Cursor
  | null : Cursor
  | val : String → Cursor
  deriving DecidableEq, Repr

namespace Cursor

/-- JS truthiness of a cursor slot (the empty string is falsy). -/
def truthy : Cursor → Bool
  | .undef => false
  | .null => false
  | .val s => s ≠ ""

/-- The cleaned querystring value of a cursor:
`omitBy(value => value === null || value === undefined)` drops nullish slots. -/
def toParam : Cursor → Option String
  | .undef => none
  | .null => none
  | .val s => some s

end Cursor

/-- JS truthiness of a `_uri` slot (`!this._uri`): absent (`null` /
`undefined`) or the empty string are falsy. -/
def uriTruthy : Option String → Bool
  | none => false
  | some s => s ≠ ""

/-- An object held in the explicit store: an item array (`_cachedLookahead`),
a string array (a `More`'s `children`), a `_query` object (its `before` and
`after` slots), or a `More` object (holding a reference to its `children`
array, which `More#_clone` shares between clones because lodash `pick` copies
the array reference). -/
inductive HObj (α : Type) where
  | arr : List α → HObj α
  | strs : List String → HObj α
  | qry : Cursor → Cursor → HObj α
  | mor : Nat → HObj α
  deriving DecidableEq, Repr

/-- The store of shareable mutable objects.  References are list indices;
allocation appends. -/
structure Store (α : Type) where
  mem : List (HObj α)
  deriving DecidableEq, Repr

namespace Store

def size (σ : Store α) : Nat := σ.mem.length

def getObj (σ : Store α) (r : Nat) : Option (HObj α) := σ.mem[r]?

def alloc (σ : Store α) (o : HObj α) : Store α × Nat :=
  (⟨σ.mem ++ [o]⟩, σ.mem.length)

def setObj (σ : Store α) (r : Nat) (o : HObj α) : Store α :=
  ⟨σ.mem.set r o⟩

/-- Dereference an item array (junk default for a dangling reference). -/
def readArr (σ : Store α) (r : Nat) : List α :=
  match σ.getObj r with
  | some (.arr xs) => xs
  | _ => []

/-- Dereference a string array. -/
def readStrs (σ : Store α) (r : Nat) : List String :=
  match σ.getObj r with
  | some (.strs xs) => xs
  | _ => []

/-- Dereference a `_query` object to its `(before, after)` cursor pair. -/
def readQry (σ : Store α) (r : Nat) : Cursor × Cursor :=
  match σ.getObj r with
  | some (.qry b a) => (b, a)
  | _ => (.undef, .undef)

/-- Dereference a `More` object to the contents of its `children` array. -/
def readMoreChildren (σ : Store α) (r : Nat) : List String :=
  match σ.getObj r with
  | some (.mor c) => σ.readStrs c
  | _ => []

end Store

end Snoo

namespace Snoo

/-- The state of a `Listing` object (`Listing.ts`).  The array slots
(`items`) and the scalar fields are the object's own storage; `_query`,
`_cachedLookahead` and `_more` are references into the store (`null` /
`undefined` sub-objects are `none`). -/
structure Listing (α : Type) where
  items : List α
  queryRef : Nat
  uri : Option String
  mthd : String
  isCommentList : Bool
  moreRef : Option Nat
  lookRef : Option Nat
  deriving DecidableEq, Repr

/-- The dereferenced, pure view of a Listing: what a caller can observe of
its items, cursors, stub and lookahead state. -/
structure ListingView (α : Type) where
  items : List α
  before : Cursor
  after : Cursor
  uri : Option String
  isCommentList : Bool
  moreChildren : Option (List String)
  lookahead : Option (List α)
  deriving DecidableEq, Repr

namespace Listing

def view (σ : Store α) (L : Listing α) : ListingView α :=
  { items := L.items
    before := (σ.readQry L.queryRef).1
    after := (σ.readQry L.queryRef).2
    uri := L.uri
    isCommentList := L.isCommentList
    moreChildren := L.moreRef.map σ.readMoreChildren
    lookahead := L.lookRef.map σ.readArr }

/-- References of a Listing are live in the store and have the right
kinds (what is always true of a JS Listing object: its sub-objects
exist). -/
def wf (σ : Store α) (L : Listing α) : Bool :=
  (match σ.getObj L.queryRef with
    | some (.qry _ _) => true
    | _ => false) &&
  (match L.lookRef with
    | none => true
    | some r =>
      match σ.getObj r with
      | some (.arr _) => true
      | _ => false) &&
  (match L.moreRef with
    | none => true
    | some r =>
      match σ.getObj r with
      | some (.mor c) =>
        (match σ.getObj c with
          | some (.strs _) => true
          | _ => false)
      | _ => false)

/-- `More#_clone`: a fresh `More` object whose `children` field still refers
to the same array (lodash `pick` copies the reference, not the array). -/
def cloneMore (σ : Store α) (r : Nat) : Store α × Nat :=
  σ.alloc (.mor (match σ.getObj r with
    | some (.mor c) => c
    | _ => 0))

/-- `Listing#_clone` (shallow, `deep = false`): copies the array slots, a
fresh `_query` object with the same cursors, a fresh `_cachedLookahead`
array with the same contents, and `this._more && this._more._clone()`
(allocated in that order). -/
def _clone (σ : Store α) (L : Listing α) : Store α × Listing α :=
  let q := σ.readQry L.queryRef
  let A := σ.alloc (.qry q.1 q.2)
  match L.lookRef, L.moreRef with
  | none, none =>
    (A.1, { L with queryRef := A.2, lookRef := none, moreRef := none })
  | some r, none =>
    let B := A.1.alloc (.arr (A.1.readArr r))
    (B.1, { L with queryRef := A.2, lookRef := some B.2, moreRef := none })
  | none, some m =>
    let C := cloneMore A.1 m
    (C.1, { L with queryRef := A.2, lookRef := none, moreRef := some C.2 })
  | some r, some m =>
    let B := A.1.alloc (.arr (A.1.readArr r))
    let C := cloneMore B.1 m
    (C.1, { L with queryRef := A.2, lookRef := some B.2, moreRef := some C.2 })

/-- `Listing#isFinished` (the getter, lines 83–97 of `Listing.ts`). -/
def isFinished (σ : Store α) (L : Listing α) : Bool :=
  bif L.isCommentList then
    -- lodash `isEmpty` is true on `null`/`undefined` and on an empty array
    (match L.lookRef with
      | none => true
      | some r => (σ.readArr r).isEmpty) &&
    (match L.moreRef with
      | none => false
      | some r => (σ.readMoreChildren r).isEmpty)
  else
    !uriTruthy L.uri ||
      ((σ.readQry L.queryRef).2 == Cursor.null && (σ.readQry L.queryRef).1 == Cursor.null)

end Listing

/-- The argument of `Listing#fetchMore`: either a bare number or an options
object; a `none` amount stands for a missing or non-numeric `amount`
property. -/
inductive RawOpts where
  | num : JSNum → RawOpts
  | obj : Option JSNum → Option Bool → Option Bool → RawOpts
  deriving DecidableEq, Repr

/-- The result of the `defaults(...)` normalization at the top of
`fetchMore` (before the amount validation). -/
structure ParsedOpts where
  amount : Option JSNum
  skipReplies : Option Bool
  append : Bool
  deriving DecidableEq, Repr

/-- `defaults(typeof options === 'number' ? {amount: options} : clone(options),
{append: true, skipReplies: options.skipReplies})`.  When a bare number is
passed, `options.skipReplies` is `undefined`. -/
def parseOptions : RawOpts → ParsedOpts
  | .num n => { amount := some n, skipReplies := none, append := true }
  | .obj a s ap => { amount := a, skipReplies := s, append := ap.getD true }

/-- A page response, as seen after `oauthRequest` and the (default identity)
`_transform`: the fetched items, the response Listing's `_query` cursors and
its stub (`response._more`, carried as the contents of its `children`). -/
structure Page (α : Type) where
  items : List α
  rBefore : Cursor
  rAfter : Cursor
  rMore : Option (List String)
  deriving DecidableEq, Repr

/-- A logged network interaction of the Listing subsystem. -/
inductive NetCall where
  | page (uri : Option String) (mthd : String) (before after : Option String)
      (limit : Option JSNum)
  | info (ids : List String)
  | tree (startIndex : Nat)
  deriving DecidableEq, Repr

/-- Errors of the embedded computations.  `invalidMethodCall` is the
`InvalidMethodCallError` thrown by `fetchMore`; `scriptEnd` means the
response script was exhausted; `outOfFuel` is the fuel artifact standing for
non-termination; `absurdState` marks branches the cloning discipline makes
unreachable. -/
inductive Err where
  | invalidMethodCall
  | scriptEnd
  | outOfFuel
  | absurdState
  deriving DecidableEq, Repr

/-- `IDEMPOTENT_HTTP_VERBS` from the constants module. -/
def IDEMPOTENT_HTTP_VERBS : List String := ["delete", "get", "head", "put"]

/-- `MAX_TOKEN_LATENCY` from the constants module (milliseconds). -/
def MAX_TOKEN_LATENCY : Int := 10000

/-- `MAX_API_INFO_AMOUNT` from the constants module. -/
def MAX_API_INFO_AMOUNT : Nat := 100

/-- The environment of a `More` fetch: `api/info` resolves each (prefixed)
id to its item, and the tree strategy (`fetchTree`) is abstracted as an
oracle from the chunk position to the materialized items it produces. -/
structure MoreEnv (α : Type) where
  infoItem : String → α
  treeItems : Nat → List α

/-- `getNextIdSlice` (`More.ts`, lines 95–97):
`children.slice(startIndex, startIndex + Math.min(desiredAmount, limit))`. -/
def getNextIdSlice (children : List String) (startIndex : Nat)
    (desiredAmount : JSNum) (limit : Nat) : List String :=
  (children.drop startIndex).take (desiredAmount.toCount limit)

/-- The body of `More#fetchMore` (`More.ts`, lines 44–60), with the
recursive self-call abstracted as `recur`.  The `skipReplies` strategy is
embedded in full: slice the next chunk of at most `MAX_API_INFO_AMOUNT =
100` ids, prefix each with `t1_`, resolve the chunk via `api/info`, and
recurse for the remainder with `startIndex` advanced past the chunk.  The
`fetchTree` strategy (`!options.skipReplies`) delegates to the tree oracle;
its internals are the subject of no claim.  Returns the fetched items
together with the log of issued calls. -/
def moreFetchMoreBody (env : MoreEnv α)
    (recur : List String → JSNum → Option Bool → Nat → Except Err (List α × List NetCall))
    (children : List String) (amount : JSNum) (skipReplies : Option Bool)
    (startIndex : Nat) : Except Err (List α × List NetCall) :=
  bif amount.le0 || decide (startIndex ≥ children.length) then
    .ok ([], [])
  else bif !(skipReplies.getD false) then
    .ok (env.treeItems startIndex, [.tree startIndex])
  else
    let ids := (getNextIdSlice children startIndex amount MAX_API_INFO_AMOUNT).map
      (fun i => "t1_" ++ i)
    let batch := ids.map env.infoItem
    match recur children (amount.subNat ids.length) skipReplies
        (startIndex + ids.length) with
    | .error e => .error e
    | .ok (rest, log) => .ok (batch ++ rest, .info ids :: log)

/-- `More#fetchMore`, tied with fuel: the recursion is not structurally
terminating for every JS input (a `NaN` amount yields an empty slice and a
constant `startIndex`), so each recursive self-call descends one fuel
level. -/
def moreFetchMore (env : MoreEnv α) :
    Nat → List String → JSNum → Option Bool → Nat → Except Err (List α × List NetCall)
  | 0, children, amount, skipReplies, startIndex =>
    moreFetchMoreBody env (fun _ _ _ _ => .error .outOfFuel) children amount
      skipReplies startIndex
  | f + 1, children, amount, skipReplies, startIndex =>
    moreFetchMoreBody env (moreFetchMore env f) children amount skipReplies startIndex

end Snoo

namespace Snoo

/-- The options of a `fetchMore` call after the amount validation has
succeeded. -/
structure ValidOpts where
  amount : JSNum
  skipReplies : Option Bool
  append : Bool
  deriving DecidableEq, Repr

/-- A successful result of `fetchMore`: the returned Listing, the updated
store, the log of issued network calls, and the unconsumed remainder of the
response script. -/
structure FetchOk (α : Type) where
  listing : Listing α
  store : Store α
  log : List NetCall
  rest : List (Page α)
  deriving DecidableEq, Repr

/-- The querystring of a `_fetchMoreRegular` page request:
`omitBy(clone(this._query), v => v === null || v === undefined)`, plus
`query.limit = Math.min(options.amount, Number.MAX_SAFE_INTEGER)` unless
this is a comment list. -/
def pageReq (σ : Store α) (L : Listing α) (amt : JSNum) : NetCall :=
  .page L.uri L.mthd (σ.readQry L.queryRef).1.toParam (σ.readQry L.queryRef).2.toParam
    (bif L.isCommentList then none else some (amt.minInt maxSafeInteger))

/-- The response-merge step of `_fetchMoreRegular` (`Listing.ts`,
lines 167–191): clone, empty the clone unless `append`, then either prepend
the page and carry the `before` cursor (nulling `after`) when reverse
pagination is active, or append it and carry the `after` cursor (nulling
`before`); in the comment-list case attach
`cloned._more || response._more || emptyChildren` and, when the page
returned more items than `options.amount`, move everything past index
`amount` of the combined array into a fresh `_cachedLookahead`
(`cloned._cachedLookahead = Array.from(cloned.splice(options.amount))`).
The source assigns the shared global `emptyChildren` object in the last
`||` case; a fresh empty `More` is observationally equivalent since no
operation ever mutates a `More`'s children array in place, which the frame
theorem below makes precise.  Indices reaching `splice` are positive here
(the caller has ruled out `amount <= 0`), so `JSNum.toCount` is the exact
index coercion. -/
def regularStep (σ : Store α) (L : Listing α) (amt : JSNum) (append : Bool)
    (resp : Page α) : Store α × Listing α :=
  let P := Listing._clone σ L
  let C₁ := bif append then P.2 else { P.2 with items := [] }
  let mrg :
      Listing α × Store α :=
    bif (P.1.readQry C₁.queryRef).1.truthy then
      ({ C₁ with items := resp.items ++ C₁.items },
        P.1.setObj C₁.queryRef (.qry resp.rBefore .null))
    else
      ({ C₁ with items := C₁.items ++ resp.items },
        P.1.setObj C₁.queryRef (.qry .null resp.rAfter))
  bif L.isCommentList then
    let withMore : Listing α × Store α :=
      match mrg.1.moreRef with
      | some _ => mrg
      | none =>
        let ac := mrg.2.alloc (.strs (match resp.rMore with
          | some ids => ids
          | none => []))
        let am := ac.1.alloc (.mor ac.2)
        ({ mrg.1 with moreRef := some am.2 }, am.1)
    bif amt.ltNat resp.items.length then
      let cut := amt.toCount withMore.1.items.length
      let al := withMore.2.alloc (.arr (withMore.1.items.drop cut))
      (al.1,
        { withMore.1 with items := withMore.1.items.take cut, lookRef := some al.2 })
    else (withMore.2, withMore.1)
  else (mrg.2, mrg.1)

/-- `Listing#_fetchMoreRegular` (`Listing.ts`, lines 148–194), with the
recursive `cloned.fetchMore(...)` call abstracted as `recur`: issue the page
request (`pageReq`), consume one page response, merge it (`regularStep`),
and recurse with
`{...options, append: true, amount: options.amount - response.length}`. -/
def _fetchMoreRegular
    (recur : Store α → Listing α → RawOpts → List (Page α) → Except Err (FetchOk α))
    (σ : Store α) (L : Listing α) (o : ValidOpts) (script : List (Page α)) :
    Except Err (FetchOk α) :=
  match script with
  | [] => .error .scriptEnd
  | resp :: script' =>
    let S := regularStep σ L o.amount o.append resp
    match recur S.1 S.2
        (.obj (some (o.amount.subNat resp.items.length)) o.skipReplies (some true))
        script' with
    | .error e => .error e
    | .ok r => .ok { r with log := pageReq σ L o.amount :: r.log }

/-- The merge step of `_fetchMoreComments`: push the fetched comments onto
a clone (emptied first unless `append`) and replace the clone's stub
children with `cloned._more.children?.slice(options.amount)` (a fresh array
assigned to the clone's own `More` object).  `none` marks the branch the
cloning discipline makes unreachable (`_clone` preserves the presence of
`_more`). -/
def commentsStep (σ : Store α) (L : Listing α) (amt : JSNum) (append : Bool)
    (moreComments : List α) : Option (Store α × Listing α) :=
  let P := Listing._clone σ L
  let C₁ := bif append then P.2 else { P.2 with items := [] }
  let C₂ := { C₁ with items := C₁.items ++ moreComments }
  match C₂.moreRef with
  | none => none
  | some cm =>
    let kids := P.1.readMoreChildren cm
    let ac := P.1.alloc (.strs (kids.drop (amt.toCount kids.length)))
    some (ac.1.setObj cm (.mor ac.2), C₂)

/-- `Listing#_fetchMoreComments` (`Listing.ts`, lines 199–209): delegate to
`this._more.fetchMore(options)` (here `moreFetchMore` on the dereferenced
children), then merge via `commentsStep`.  The `absurdState` errors are
unreachable: the dispatch in `fetchMore` guarantees `this._more`. -/
def _fetchMoreComments (fuel : Nat) (env : MoreEnv α)
    (σ : Store α) (L : Listing α) (o : ValidOpts) :
    Except Err (Store α × Listing α × List NetCall) :=
  match L.moreRef with
  | none => .error .absurdState
  | some mr =>
    match moreFetchMore env fuel (σ.readMoreChildren mr) o.amount o.skipReplies 0 with
    | .error e => .error e
    | .ok (moreComments, mlog) =>
      match commentsStep σ L o.amount o.append moreComments with
      | none => .error .absurdState
      | some S => .ok (S.1, S.2, mlog)

/-- The clone-and-drain step of the lookahead branch of `fetchMore`
(`Listing.ts`, lines 137–142): clone, splice up to `amount` items out of the
clone's `_cachedLookahead` onto its tail, and compute the remaining amount
`options.amount - cloned.length + this.length` (which equals `amount` minus
the number of items just moved).  `none` marks the branch the cloning
discipline makes unreachable (`_clone` preserves the presence of
`_cachedLookahead`). -/
def lookaheadStep (σ : Store α) (L : Listing α) (amt : JSNum) :
    Option (Store α × Listing α × JSNum) :=
  let P := Listing._clone σ L
  match P.2.lookRef with
  | none => none
  | some r' =>
    let c := P.1.readArr r'
    let cut := amt.toCount c.length
    some (P.1.setObj r' (.arr (c.drop cut)),
      { P.2 with items := P.2.items ++ c.take cut },
      amt.subNat (c.take cut).length)

/-- The body of `Listing#fetchMore` (`Listing.ts`, lines 125–146), with the
recursive self-calls abstracted as `recur`: normalize and validate the
options (throwing `InvalidMethodCallError` when `amount` is missing,
non-numeric or `NaN`); return a clone (emptied unless `append`) when the
amount is non-positive or the Listing is finished; if `_cachedLookahead` is
set (truthy — note an empty array is truthy), move up to `amount` items out
of the clone's lookahead via `splice` and recurse with the bare number
`options.amount - cloned.length + this.length`, which equals `amount` minus
the number of items just moved; otherwise dispatch on `this._more` to the
comment or the regular strategy. -/
def fetchMoreMain
    (recur : Store α → Listing α → RawOpts → List (Page α) → Except Err (FetchOk α))
    (fuel : Nat) (env : MoreEnv α)
    (σ : Store α) (L : Listing α) (rawOpts : RawOpts) (script : List (Page α)) :
    Except Err (FetchOk α) :=
  let p := parseOptions rawOpts
  match p.amount with
  | none => .error .invalidMethodCall
  | some amt =>
    bif amt.isNaN then .error .invalidMethodCall
    else
      let o : ValidOpts := { amount := amt, skipReplies := p.skipReplies, append := p.append }
      bif amt.le0 || L.isFinished σ then
        let P := Listing._clone σ L
        .ok { listing := bif o.append then P.2 else { P.2 with items := [] },
              store := P.1, log := [], rest := script }
      else
        match L.lookRef with
        | some _ =>
          match lookaheadStep σ L amt with
          | none => .error .absurdState
          | some S => recur S.1 S.2.1 (.num S.2.2) script
        | none =>
          match L.moreRef with
          | some _ =>
            match _fetchMoreComments fuel env σ L o with
            | .error e => .error e
            | .ok (σ', C, mlog) =>
              .ok { listing := C, store := σ', log := mlog, rest := script }
          | none => _fetchMoreRegular recur σ L o script

/-- `Listing#fetchMore`, tied with fuel: each recursive self-call (from the
lookahead branch or from `_fetchMoreRegular`) descends one fuel level. -/
def fetchMore (env : MoreEnv α) :
    Nat → Store α → Listing α → RawOpts → List (Page α) → Except Err (FetchOk α)
  | 0, σ, L, o, s =>
    fetchMoreMain (fun _ _ _ _ => .error .outOfFuel) 0 env σ L o s
  | f + 1, σ, L, o, s =>
    fetchMoreMain (fun σ' L' o' s' => fetchMore env f σ' L' o' s') f env σ L o s

/-- `Listing#fetchAll` (`Listing.ts`, lines 221–223):
`this.fetchMore({...options, amount: Infinity})`. -/
def fetchAll (env : MoreEnv α) (fuel : Nat) (σ : Store α) (L : Listing α)
    (skipReplies append : Option Bool) (script : List (Page α)) :
    Except Err (FetchOk α) :=
  fetchMore env fuel σ L (.obj (some .posInf) skipReplies append) script

end Snoo

namespace Snoo

/-- The configuration slice of `createConfig()` that the request pipeline
reads. -/
structure PipeConfig where
  retryErrorCodes : List Nat
  maxRetryAttempts : Nat
  continueAfterRatelimitError : Bool
  deriving DecidableEq, Repr

/-- The defaults from `create_config.ts`. -/
def defaultPipeConfig : PipeConfig :=
  { retryErrorCodes := [502, 503, 504, 522]
    maxRetryAttempts := 3
    continueAfterRatelimitError := false }

/-- The requester state the pipeline reads and writes (`snoowrap.ts`
fields).  `none` is JS `null`. -/
structure AuthState where
  accessToken : Option String
  tokenExpiration : Option Int
  refreshToken : Option String
  username : Option String
  password : Option String
  scope : Option (List String)
  ratelimitRemaining : Option Int
  ratelimitExpiration : Option Int
  deriving DecidableEq, Repr

/-- JS arithmetic coercion of a possibly-`null` number: `null` behaves as
`0` (as in `this.tokenExpiration - Date.now()` and the ratelimit
comparisons). -/
def jsNum0 : Option Int → Int
  | none => 0
  | some n => n

/-- One scripted network interaction of the pipeline: a main-request
success (carrying the materialized body), a main-request failure with a
status code, or a token-endpoint response
`{access_token, expires_in, error?, error_description?, scope}`. -/
inductive NetEvent (β : Type) where
  | httpOk : β → NetEvent β
  | httpErr : Nat → NetEvent β
  | tokenResp : String → Int → Option String → Option String → String → NetEvent β
  deriving DecidableEq, Repr

/-- Errors surfaced by the embedded pipeline.  `rateLimit` is the
`RateLimitError` carrying the wait duration; `httpStatus` is a response
error propagated to the caller; `oauthErr` are the token-endpoint errors
thrown by `updateAccessToken`. -/
inductive PipeErr where
  | rateLimit : Int → PipeErr
  | httpStatus : Nat → PipeErr
  | oauthErr : String → PipeErr
  | scriptMismatch : PipeErr
  | outOfFuel : PipeErr
  deriving DecidableEq, Repr

/-- The request options the retry logic inspects. -/
structure ReqOptions where
  uri : String
  mthd : String
  deriving DecidableEq, Repr

/-- A dispatched HTTP request, as logged by the embedded pipeline: the
request and the value of the `attempts` counter at dispatch time. -/
structure HttpCall where
  uri : String
  mthd : String
  attempt : Nat
  deriving DecidableEq, Repr

/-- JS `String#split(' ')` on the scope string, as a structurally recursive
function on the character list (so that concrete runs reduce
definitionally); `"a b".split(' ') = ["a", "b"]`, `"".split(' ') = [""]`. -/
def splitSpaceAux : List Char → List Char → List String
  | [], acc => [String.mk acc.reverse]
  | c :: cs, acc =>
    bif c == ' ' then String.mk acc.reverse :: splitSpaceAux cs []
    else splitSpaceAux cs (c :: acc)

def splitSpace (s : String) : List String :=
  splitSpaceAux s.data []

/-- `updateAccessToken` (`request_handler.ts`, lines 207–234): if the token
is missing or expired (`Date.now() > this.tokenExpiration`, with `null`
coercing to `0`) and credentials allow a refresh, consume a token-endpoint
response, store the new token and expiry, and fail on OAuth error fields
(in the source's order: `invalid_grant`, then `error_description`, then
`error`); otherwise return the cached token unchanged. -/
def updateAccessToken (now : Int) (st : AuthState) (script : List (NetEvent β)) :
    Except PipeErr (Option String × AuthState × List (NetEvent β)) :=
  bif (st.accessToken.isNone || decide (now > jsNum0 st.tokenExpiration)) &&
      (st.refreshToken.isSome || (st.username.isSome && st.password.isSome)) then
    match script with
    | .tokenResp tok expIn errField errDesc sc :: rest =>
      let st1 := { st with accessToken := some tok,
                           tokenExpiration := some (now + expIn * 1000) }
      bif errField == some "invalid_grant" then .error (.oauthErr "invalid_grant")
      else bif errDesc.isSome then .error (.oauthErr "error_description")
      else bif errField.isSome then .error (.oauthErr "error")
      else .ok (some tok, { st1 with scope := some (splitSpace sc) }, rest)
    | _ => .error .scriptMismatch
  else .ok (st.accessToken, st, script)

/-- The per-attempt body of `oauthRequest` (`request_handler.ts`,
lines 49–118), at a fixed clock instant `now` (the modelled paths perform
no time-dependent waiting beyond the gate check; `_awaitRequestDelay` and
`_awaitExponentialBackoff` are pure delays).  The lifecycle: the ratelimit
gate (`_awaitRatelimit`: fail with `RateLimitError` when the window is
exhausted and queueing is disabled), `updateAccessToken`, then the
dispatch, which consumes the next scripted event.  Response
materialization (`_populate`, `_setUri`) is the identity on the scripted
body.

Error handling follows the source's two `.catch` calls under native
`Promise` semantics: the first `.catch` receives
`...retryErrorCodes.map(code => ({statusCode: code}))` spread before its
handler, so its `onRejected` argument is the non-callable object
`{statusCode: 502}` and every rejection passes through unchanged — the
transient-retry handler (embedded separately as `retryCatchHandler`) is
never invoked.  The second `.catch` performs the stale-token recovery: on a
401 with a cached token whose `tokenExpiration - Date.now()` is below
`MAX_TOKEN_LATENCY`, invalidate the token and re-execute the same request
with the same `attempts` value (`recur`); otherwise the error propagates. -/
def oauthRequestStep (cfg : PipeConfig) (now : Int)
    (recur : AuthState → Nat → List (NetEvent β) →
      Except PipeErr (β × AuthState × List HttpCall × List (NetEvent β)))
    (st : AuthState) (opts : ReqOptions) (attempts : Nat) (script : List (NetEvent β)) :
    Except PipeErr (β × AuthState × List HttpCall × List (NetEvent β)) :=
  bif decide (jsNum0 st.ratelimitRemaining < 1) &&
      decide (now < jsNum0 st.ratelimitExpiration) &&
      !cfg.continueAfterRatelimitError then
    .error (.rateLimit (jsNum0 st.ratelimitExpiration - now))
  else
    match updateAccessToken now st script with
    | .error e => .error e
    | .ok (_tok, st1, script1) =>
      let call : HttpCall := { uri := opts.uri, mthd := opts.mthd, attempt := attempts }
      match script1 with
      | [] => .error .scriptMismatch
      | .tokenResp _ _ _ _ _ :: _ => .error .scriptMismatch
      | .httpOk b :: rest => .ok (b, st1, [call], rest)
      | .httpErr s :: rest =>
        bif s == 401 && st1.accessToken.isSome &&
            decide (jsNum0 st1.tokenExpiration - now < MAX_TOKEN_LATENCY) then
          match recur { st1 with accessToken := none, tokenExpiration := none }
              attempts rest with
          | .error e => .error e
          | .ok (b, st2, log, rest2) => .ok (b, st2, call :: log, rest2)
        else .error (.httpStatus s)

/-- `oauthRequest`, tied with fuel: the stale-token re-execution descends
one fuel level. -/
def oauthRequest (cfg : PipeConfig) (now : Int) :
    Nat → AuthState → ReqOptions → Nat → List (NetEvent β) →
    Except PipeErr (β × AuthState × List HttpCall × List (NetEvent β))
  | 0, st, opts, attempts, script =>
    oauthRequestStep cfg now (fun _ _ _ => .error .outOfFuel) st opts attempts script
  | f + 1, st, opts, attempts, script =>
    oauthRequestStep cfg now
      (fun st' attempts' script' => oauthRequest cfg now f st' opts attempts' script')
      st opts attempts script

/-- The retry handler passed as the final argument of the first `.catch` in
`oauthRequest` (`request_handler.ts`, lines 91–101), translated for
reference: throw unless the method is idempotent and attempts remain,
otherwise retry with `attempts + 1`.  As explained on `oauthRequest`, native
`Promise.prototype.catch` never invokes this function, because it is passed
as the fifth argument after four non-callable filter objects. -/
def retryCatchHandler (cfg : PipeConfig) (now : Int) (fuel : Nat) (st : AuthState)
    (opts : ReqOptions) (attempts : Nat) (script : List (NetEvent β)) (statusCode : Nat) :
    Except PipeErr (β × AuthState × List HttpCall × List (NetEvent β)) :=
  bif !(IDEMPOTENT_HTTP_VERBS.contains opts.mthd) || decide (attempts ≥ cfg.maxRetryAttempts) then
    .error (.httpStatus statusCode)
  else oauthRequest cfg now fuel st opts (attempts + 1) script

end Snoo

namespace Snoo

namespace Store

theorem alloc_snd (σ : Store α) (o : HObj α) : (σ.alloc o).2 = σ.size := rfl

theorem size_alloc (σ : Store α) (o : HObj α) : (σ.alloc o).1.size = σ.size + 1 := by
  simp [alloc, size]

theorem getObj_alloc_of_lt (σ : Store α) (o : HObj α) {r : Nat} (h : r < σ.size) :
    (σ.alloc o).1.getObj r = σ.getObj r := by
  simp only [alloc, getObj]
  rw [List.getElem?_append]
  exact if_pos h

theorem getObj_alloc_self (σ : Store α) (o : HObj α) :
    (σ.alloc o).1.getObj σ.size = some o := by
  simp [alloc, getObj, size, List.getElem?_append_right]

theorem size_setObj (σ : Store α) (r : Nat) (o : HObj α) :
    (σ.setObj r o).size = σ.size := by
  simp [setObj, size]

theorem getObj_setObj_self (σ : Store α) {r : Nat} (o : HObj α) (h : r < σ.size) :
    (σ.setObj r o).getObj r = some o := by
  simpa [setObj, getObj, size] using List.getElem?_set_eq_of_lt o h

theorem getObj_setObj_ne (σ : Store α) {r r' : Nat} (o : HObj α) (h : r' ≠ r) :
    (σ.setObj r o).getObj r' = σ.getObj r' := by
  simp [setObj, getObj, List.getElem?_set_ne (fun hh => h hh.symm)]

theorem lt_size_of_getObj {σ : Store α} {r : Nat} {o : HObj α}
    (h : σ.getObj r = some o) : r < σ.size := by
  simp only [getObj] at h
  exact (List.getElem?_eq_some.mp h).1

theorem getObj_of_size_le {σ : Store α} {r : Nat} (h : σ.size ≤ r) :
    σ.getObj r = none := by
  simp only [getObj]
  exact List.getElem?_eq_none h

end Store

end Snoo

namespace Snoo

namespace Store

theorem readArr_congr {σ σ' : Store α} {r : Nat} (h : σ'.getObj r = σ.getObj r) :
    σ'.readArr r = σ.readArr r := by
  simp [readArr, h]

theorem readStrs_congr {σ σ' : Store α} {r : Nat} (h : σ'.getObj r = σ.getObj r) :
    σ'.readStrs r = σ.readStrs r := by
  simp [readStrs, h]

theorem readQry_congr {σ σ' : Store α} {r : Nat} (h : σ'.getObj r = σ.getObj r) :
    σ'.readQry r = σ.readQry r := by
  simp [readQry, h]

/-- `σ'` extends `σ`: it is at least as large and agrees with `σ` on every
reference live in `σ`.  Every operation of the Listing subsystem produces an
extension of its input store: writes only ever target freshly allocated
objects. -/
def Ext (σ σ' : Store α) : Prop :=
  σ.size ≤ σ'.size ∧ ∀ r, r < σ.size → σ'.getObj r = σ.getObj r

theorem Ext.rfl (σ : Store α) : Ext σ σ := ⟨le_refl _, fun _ _ => Eq.refl _⟩

theorem Ext.trans {σ₁ σ₂ σ₃ : Store α} (h₁ : Ext σ₁ σ₂) (h₂ : Ext σ₂ σ₃) :
    Ext σ₁ σ₃ :=
  ⟨le_trans h₁.1 h₂.1, fun r hr => ((h₂.2 r (lt_of_lt_of_le hr h₁.1)).trans (h₁.2 r hr))⟩

theorem Ext.alloc {σ σ₁ : Store α} (h : Ext σ σ₁) (o : HObj α) :
    Ext σ (σ₁.alloc o).1 := by
  refine h.trans ⟨?_, fun r hr => ?_⟩
  · rw [size_alloc]; omega
  · exact getObj_alloc_of_lt σ₁ o hr

theorem Ext.set {σ σ₁ : Store α} (h : Ext σ σ₁) {r : Nat} (hr : σ.size ≤ r) (o : HObj α) :
    Ext σ (σ₁.setObj r o) := by
  refine ⟨by rw [size_setObj]; exact h.1, fun r' hr' => ?_⟩
  rw [getObj_setObj_ne σ₁ o (by omega)]
  exact h.2 r' hr' 

end Store

namespace Listing

theorem clone_items (σ : Store α) (L : Listing α) : (_clone σ L).2.items = L.items := by
  rcases hl : L.lookRef with _ | r <;> rcases hm : L.moreRef with _ | m <;>
    simp [_clone, hl, hm]

theorem clone_uri (σ : Store α) (L : Listing α) : (_clone σ L).2.uri = L.uri := by
  rcases hl : L.lookRef with _ | r <;> rcases hm : L.moreRef with _ | m <;>
    simp [_clone, hl, hm]

theorem clone_mthd (σ : Store α) (L : Listing α) : (_clone σ L).2.mthd = L.mthd := by
  rcases hl : L.lookRef with _ | r <;> rcases hm : L.moreRef with _ | m <;>
    simp [_clone, hl, hm]

theorem clone_isCommentList (σ : Store α) (L : Listing α) :
    (_clone σ L).2.isCommentList = L.isCommentList := by
  rcases hl : L.lookRef with _ | r <;> rcases hm : L.moreRef with _ | m <;>
    simp [_clone, hl, hm]

theorem clone_queryRef (σ : Store α) (L : Listing α) :
    (_clone σ L).2.queryRef = σ.size := by
  rcases hl : L.lookRef with _ | r <;> rcases hm : L.moreRef with _ | m <;>
    simp [_clone, hl, hm, Store.alloc, Store.size]

theorem clone_lookRef_isSome (σ : Store α) (L : Listing α) :
    (_clone σ L).2.lookRef.isSome = L.lookRef.isSome := by
  rcases hl : L.lookRef with _ | r <;> rcases hm : L.moreRef with _ | m <;>
    simp [_clone, hl, hm]

theorem clone_moreRef_isSome (σ : Store α) (L : Listing α) :
    (_clone σ L).2.moreRef.isSome = L.moreRef.isSome := by
  rcases hl : L.lookRef with _ | r <;> rcases hm : L.moreRef with _ | m <;>
    simp [_clone, hl, hm]

theorem clone_ext (σ : Store α) (L : Listing α) : Store.Ext σ (_clone σ L).1 := by
  rcases hl : L.lookRef with _ | r <;> rcases hm : L.moreRef with _ | m <;>
    simp only [_clone, cloneMore, hl, hm] <;>
    first
      | exact (Store.Ext.rfl σ).alloc _
      | exact (((Store.Ext.rfl σ).alloc _).alloc _)
      | exact ((((Store.Ext.rfl σ).alloc _).alloc _).alloc _)

theorem clone_lookRef_ge (σ : Store α) (L : Listing α) :
    ∀ r ∈ (_clone σ L).2.lookRef, σ.size ≤ r := by
  rcases hl : L.lookRef with _ | r <;> rcases hm : L.moreRef with _ | m <;>
    simp [_clone, hl, hm, Store.alloc, Store.size]

theorem clone_moreRef_ge (σ : Store α) (L : Listing α) :
    ∀ r ∈ (_clone σ L).2.moreRef, σ.size ≤ r := by
  rcases hl : L.lookRef with _ | r <;> rcases hm : L.moreRef with _ | m <;>
    simp [_clone, cloneMore, hl, hm, Store.alloc, Store.size]

end Listing

end Snoo

namespace Snoo

namespace Listing

theorem wf_query {σ : Store α} {L : Listing α} (h : L.wf σ = true) :
    ∃ b a, σ.getObj L.queryRef = some (.qry b a) := by
  unfold wf at h
  simp only [Bool.and_eq_true] at h
  obtain ⟨⟨h1, -⟩, -⟩ := h
  rcases hq : σ.getObj L.queryRef with _ | obj
  · simp only [hq] at h1; simp at h1
  · rcases obj with xs | ids | ⟨b, a⟩ | c <;> simp only [hq] at h1 <;> simp at h1 ⊢

theorem wf_look {σ : Store α} {L : Listing α} (h : L.wf σ = true)
    {r : Nat} (hr : L.lookRef = some r) :
    ∃ xs, σ.getObj r = some (.arr xs) := by
  unfold wf at h
  simp only [Bool.and_eq_true] at h
  obtain ⟨⟨-, h2⟩, -⟩ := h
  simp only [hr] at h2
  rcases hq : σ.getObj r with _ | obj
  · simp only [hq] at h2; simp at h2
  · rcases obj with xs | ids | ⟨b, a⟩ | c <;> simp only [hq] at h2 <;> simp at h2 ⊢

theorem wf_more {σ : Store α} {L : Listing α} (h : L.wf σ = true)
    {m : Nat} (hm : L.moreRef = some m) :
    ∃ c ids, σ.getObj m = some (.mor c) ∧ σ.getObj c = some (.strs ids) := by
  unfold wf at h
  simp only [Bool.and_eq_true] at h
  obtain ⟨-, h3⟩ := h
  simp only [hm] at h3
  rcases hq : σ.getObj m with _ | obj
  · simp only [hq] at h3; simp at h3
  · rcases obj with xs | ids | ⟨b, a⟩ | c <;> simp only [hq] at h3 <;> simp at h3 ⊢
    rcases hc : σ.getObj c with _ | obj'
    · simp only [hc] at h3; simp at h3
    · rcases obj' with xs' | ids' | ⟨b', a'⟩ | c' <;> simp only [hc] at h3 <;>
        simp at h3 ⊢

theorem wf_mk {σ : Store α} {L : Listing α}
    (h1 : ∃ b a, σ.getObj L.queryRef = some (.qry b a))
    (h2 : ∀ r ∈ L.lookRef, ∃ xs, σ.getObj r = some (.arr xs))
    (h3 : ∀ m ∈ L.moreRef, ∃ c ids,
      σ.getObj m = some (.mor c) ∧ σ.getObj c = some (.strs ids)) :
    L.wf σ = true := by
  obtain ⟨b, a, hq⟩ := h1
  unfold wf
  simp only [Bool.and_eq_true]
  refine ⟨⟨by rw [hq], ?_⟩, ?_⟩
  · rcases hl : L.lookRef with _ | r
    · simp
    · obtain ⟨xs, hx⟩ := h2 r (by rw [hl]; rfl)
      simp [hx]
  · rcases hm : L.moreRef with _ | m
    · simp
    · obtain ⟨c, ids, hc, hi⟩ := h3 m (by rw [hm]; rfl)
      simp [hc, hi]

/-- Store extension preserves the view and well-formedness of a listing
whose references are live. -/
theorem view_wf_of_ext {σ σ' : Store α} {L : Listing α}
    (hw : L.wf σ = true) (he : Store.Ext σ σ') :
    L.view σ' = L.view σ ∧ L.wf σ' = true := by
  obtain ⟨b, a, hq⟩ := wf_query hw
  have hqlt := Store.lt_size_of_getObj hq
  have hq' : σ'.getObj L.queryRef = σ.getObj L.queryRef := he.2 _ hqlt
  have hmore : L.moreRef.map σ'.readMoreChildren = L.moreRef.map σ.readMoreChildren := by
    rcases hx : L.moreRef with _ | m
    · rfl
    · obtain ⟨c, ids, hc, hi⟩ := wf_more hw hx
      have hc' := he.2 _ (Store.lt_size_of_getObj hc)
      have hi' := he.2 _ (Store.lt_size_of_getObj hi)
      simp [Store.readMoreChildren, hc', hc, Store.readStrs_congr hi']
  have hlook : L.lookRef.map σ'.readArr = L.lookRef.map σ.readArr := by
    rcases hx : L.lookRef with _ | r
    · rfl
    · obtain ⟨xs, hx'⟩ := wf_look hw hx
      simp [Store.readArr_congr (he.2 _ (Store.lt_size_of_getObj hx'))]
  constructor
  · unfold view
    rw [Store.readQry_congr hq', hmore, hlook]
  · refine wf_mk ⟨b, a, by rw [hq', hq]⟩ ?_ ?_
    · intro r hr
      obtain ⟨xs, hx⟩ := wf_look hw hr
      exact ⟨xs, by rw [he.2 _ (Store.lt_size_of_getObj hx), hx]⟩
    · intro m hm
      obtain ⟨c, ids, hc, hi⟩ := wf_more hw hm
      exact ⟨c, ids, by rw [he.2 _ (Store.lt_size_of_getObj hc)]; exact hc,
        by rw [he.2 _ (Store.lt_size_of_getObj hi)]; exact hi⟩

end Listing

end Snoo

namespace Snoo

/-- Inversion principle for a successful `fetchMore`: exactly one of the
four source branches produced the result. -/
theorem fetchMore_inv {env : MoreEnv α} {fuel : Nat} {σ : Store α} {L : Listing α}
    {opts : RawOpts} {script : List (Page α)} {r : FetchOk α}
    (h : fetchMore env fuel σ L opts script = .ok r) :
    ∃ amt, (parseOptions opts).amount = some amt ∧ amt.isNaN = false ∧
      (((amt.le0 || L.isFinished σ) = true ∧
          r = { listing := bif (parseOptions opts).append then (Listing._clone σ L).2
                  else { (Listing._clone σ L).2 with items := [] },
                store := (Listing._clone σ L).1, log := [], rest := script }) ∨
        ((amt.le0 || L.isFinished σ) = false ∧
          ((∃ r0 S f, L.lookRef = some r0 ∧ fuel = f + 1 ∧
              lookaheadStep σ L amt = some S ∧
              fetchMore env f S.1 S.2.1 (.num S.2.2) script = .ok r) ∨
           (L.lookRef = none ∧ (∃ m mi mlog S, L.moreRef = some m ∧
              moreFetchMore env fuel.pred (σ.readMoreChildren m) amt
                (parseOptions opts).skipReplies 0 = .ok (mi, mlog) ∧
              commentsStep σ L amt (parseOptions opts).append mi = some S ∧
              r = { listing := S.2, store := S.1, log := mlog, rest := script })) ∨
           (L.lookRef = none ∧ L.moreRef = none ∧
            ∃ f resp script' r', fuel = f + 1 ∧ script = resp :: script' ∧
              fetchMore env f (regularStep σ L amt (parseOptions opts).append resp).1
                (regularStep σ L amt (parseOptions opts).append resp).2
                (.obj (some (amt.subNat resp.items.length)) (parseOptions opts).skipReplies
                  (some true)) script' = .ok r' ∧
              r = { r' with log := pageReq σ L amt :: r'.log })))) := by
  have main : ∀ (recur : Store α → Listing α → RawOpts → List (Page α) →
        Except Err (FetchOk α)) (mf : Nat),
      fetchMoreMain recur mf env σ L opts script = .ok r →
      ∃ amt, (parseOptions opts).amount = some amt ∧ amt.isNaN = false ∧
        (((amt.le0 || L.isFinished σ) = true ∧
            r = { listing := bif (parseOptions opts).append then (Listing._clone σ L).2
                    else { (Listing._clone σ L).2 with items := [] },
                  store := (Listing._clone σ L).1, log := [], rest := script }) ∨
          ((amt.le0 || L.isFinished σ) = false ∧
            ((∃ r0 S, L.lookRef = some r0 ∧ lookaheadStep σ L amt = some S ∧
                recur S.1 S.2.1 (.num S.2.2) script = .ok r) ∨
             (L.lookRef = none ∧ (∃ m mi mlog S, L.moreRef = some m ∧
                moreFetchMore env mf (σ.readMoreChildren m) amt
                  (parseOptions opts).skipReplies 0 = .ok (mi, mlog) ∧
                commentsStep σ L amt (parseOptions opts).append mi = some S ∧
                r = { listing := S.2, store := S.1, log := mlog, rest := script })) ∨
             (L.lookRef = none ∧ L.moreRef = none ∧
              ∃ resp script' r', script = resp :: script' ∧
                recur (regularStep σ L amt (parseOptions opts).append resp).1
                  (regularStep σ L amt (parseOptions opts).append resp).2
                  (.obj (some (amt.subNat resp.items.length))
                    (parseOptions opts).skipReplies (some true)) script' = .ok r' ∧
                r = { r' with log := pageReq σ L amt :: r'.log })))) := by
    intro recur mf h
    unfold fetchMoreMain at h
    rcases hpa : (parseOptions opts).amount with _ | amt <;> simp only [hpa] at h
    · exact absurd h (by simp)
    refine ⟨amt, rfl, ?_⟩
    rcases hnan : amt.isNaN with _ | _ <;>
      simp only [hnan, cond_true, cond_false] at h
    swap
    · exact absurd h (by simp)
    refine ⟨rfl, ?_⟩
    rcases hg : (amt.le0 || L.isFinished σ) with _ | _ <;>
      simp only [hg, cond_true, cond_false] at h
    swap
    · left
      refine ⟨rfl, ?_⟩
      simp at h
      exact h.symm
    right
    refine ⟨rfl, ?_⟩
    rcases hl : L.lookRef with _ | r0 <;> simp only [hl] at h
    · rcases hm : L.moreRef with _ | m <;> simp only [hm] at h
      · -- regular branch
        right; right
        refine ⟨rfl, rfl, ?_⟩
        unfold _fetchMoreRegular at h
        rcases hs : script with _ | ⟨resp, script'⟩ <;> simp only [hs] at h
        · exact absurd h (by simp)
        rcases hrec : recur (regularStep σ L amt (parseOptions opts).append resp).1
            (regularStep σ L amt (parseOptions opts).append resp).2
            (.obj (some (amt.subNat resp.items.length))
              (parseOptions opts).skipReplies (some true)) script' with e | r'
        · rw [hrec] at h; exact absurd h (by simp)
        · rw [hrec] at h
          exact ⟨resp, script', r', rfl, hrec, by exact ((Except.ok.injEq _ _).mp h).symm⟩
      · -- comments branch
        right; left
        refine ⟨rfl, ?_⟩
        unfold _fetchMoreComments at h
        simp only [hm] at h
        rcases hmf : moreFetchMore env mf (σ.readMoreChildren m) amt
            (parseOptions opts).skipReplies 0 with e | p
        · rw [hmf] at h; exact absurd h (by simp)
        · rw [hmf] at h
          rcases hcs : commentsStep σ L amt (parseOptions opts).append p.1 with _ | S
        
          · rw [show p = (p.1, p.2) from rfl] at h
            simp only [hcs] at h
            exact absurd h (by simp)
          · rw [show p = (p.1, p.2) from rfl] at h
            simp only [hcs] at h
            exact ⟨m, p.1, p.2, S, rfl, by rw [hmf], hcs,
              by exact ((Except.ok.injEq _ _).mp h).symm⟩
    · -- lookahead branch
      left
      rcases hla : lookaheadStep σ L amt with _ | S <;> simp only [hla] at h
      · exact absurd h (by simp)
      · exact ⟨r0, S, rfl, rfl, h⟩
  rcases fuel with _ | f
  · have := main (fun _ _ _ _ => .error .outOfFuel) 0 (by simpa [fetchMore] using h)
    obtain ⟨amt, h1, h2, h3⟩ := this
    refine ⟨amt, h1, h2, ?_⟩
    rcases h3 with h3 | ⟨hg, h4 | h4 | h4⟩
    · exact Or.inl h3
    · obtain ⟨_, _, _, _, hbad⟩ := h4
      exact absurd hbad (by simp)
    · exact Or.inr ⟨hg, Or.inr (Or.inl h4)⟩
    · obtain ⟨_, _, ⟨_, _, _, _, hbad, -⟩⟩ := h4
      exact absurd hbad (by simp)
  · have := main (fun σ' L' o' s' => fetchMore env f σ' L' o' s') f
      (by simpa [fetchMore] using h)
    obtain ⟨amt, h1, h2, h3⟩ := this
    refine ⟨amt, h1, h2, ?_⟩
    rcases h3 with h3 | ⟨hg, h4 | h4 | h4⟩
    · exact Or.inl h3
    · obtain ⟨r0, S, ha, hb, hc⟩ := h4
      exact Or.inr ⟨hg, Or.inl ⟨r0, S, f, ha, rfl, hb, hc⟩⟩
    · exact Or.inr ⟨hg, Or.inr (Or.inl h4)⟩
    · obtain ⟨ha, hb, resp, script', r', hc, hd, he⟩ := h4
      exact Or.inr ⟨hg, Or.inr (Or.inr ⟨ha, hb, f, resp, script', r', rfl, hc, hd, he⟩)⟩

end Snoo

namespace Snoo

namespace Listing

theorem clone_readQry (σ : Store α) (L : Listing α) :
    (_clone σ L).1.readQry (_clone σ L).2.queryRef = σ.readQry L.queryRef := by
  have base : ∀ σ' : Store α, Store.Ext (σ.alloc (.qry (σ.readQry L.queryRef).1
      (σ.readQry L.queryRef).2)).1 σ' →
      σ'.readQry σ.size = σ.readQry L.queryRef := by
    intro σ' he
    have h1 : σ'.getObj σ.size = some (.qry (σ.readQry L.queryRef).1
        (σ.readQry L.queryRef).2) := by
      rw [he.2 σ.size (by rw [Store.size_alloc]; omega)]
      exact Store.getObj_alloc_self σ _
    simp [Store.readQry, h1]
  rcases hl : L.lookRef with _ | r0 <;> rcases hm : L.moreRef with _ | m0 <;>
    simp only [_clone, cloneMore, hl, hm] <;>
    first
      | exact base _ (Store.Ext.rfl _)
      | exact base _ ((Store.Ext.rfl _).alloc _)
      | exact base _ (((Store.Ext.rfl _).alloc _).alloc _)

end Listing

end Snoo

namespace Snoo

namespace Store

theorem readArr_alloc_self (σ : Store α) (xs : List α) :
    (σ.alloc (.arr xs)).1.readArr σ.size = xs := by
  simp [readArr, getObj_alloc_self]

theorem readStrs_alloc_self (σ : Store α) (ids : List String) :
    (σ.alloc (.strs ids)).1.readStrs σ.size = ids := by
  simp [readStrs, getObj_alloc_self]

end Store

namespace Listing

theorem clone_look_read (σ : Store α) (L : Listing α) (hw : L.wf σ = true)
    {r0 : Nat} (hl : L.lookRef = some r0) :
    ∃ lr, (_clone σ L).2.lookRef = some lr ∧
      (_clone σ L).1.readArr lr = σ.readArr r0 := by
  obtain ⟨xs, hx⟩ := wf_look hw hl
  have hr0 : r0 < σ.size := Store.lt_size_of_getObj hx
  have hA : ((σ.alloc (.qry (σ.readQry L.queryRef).1
      (σ.readQry L.queryRef).2)).1.readArr r0) = σ.readArr r0 :=
    Store.readArr_congr (Store.getObj_alloc_of_lt σ _ hr0)
  rcases hm : L.moreRef with _ | m0 <;> simp only [_clone, cloneMore, hl, hm]
  · refine ⟨_, rfl, ?_⟩
    rw [show ((σ.alloc (.qry (σ.readQry L.queryRef).1
        (σ.readQry L.queryRef).2)).1.alloc (.arr ((σ.alloc (.qry (σ.readQry L.queryRef).1
        (σ.readQry L.queryRef).2)).1.readArr r0))).2
        = (σ.alloc (.qry (σ.readQry L.queryRef).1 (σ.readQry L.queryRef).2)).1.size
        from rfl]
    rw [Store.readArr_alloc_self, hA]
  · refine ⟨_, rfl, ?_⟩
    rw [show ((σ.alloc (.qry (σ.readQry L.queryRef).1
        (σ.readQry L.queryRef).2)).1.alloc (.arr ((σ.alloc (.qry (σ.readQry L.queryRef).1
        (σ.readQry L.queryRef).2)).1.readArr r0))).2
        = (σ.alloc (.qry (σ.readQry L.queryRef).1 (σ.readQry L.queryRef).2)).1.size
        from rfl]
    rw [Store.readArr_congr (Store.getObj_alloc_of_lt _ _ (by
      rw [Store.size_alloc, Store.size_alloc]
      have : (σ.alloc (.qry (σ.readQry L.queryRef).1
        (σ.readQry L.queryRef).2)).1.size = σ.size + 1 := Store.size_alloc σ _
      omega))]
    rw [Store.readArr_alloc_self, hA]

end Listing

end Snoo

namespace Snoo

namespace Listing

theorem clone_more_read (σ : Store α) (L : Listing α) (hw : L.wf σ = true)
    {m0 : Nat} (hm : L.moreRef = some m0) :
    ∃ mr, (_clone σ L).2.moreRef = some mr ∧
      (_clone σ L).1.readMoreChildren mr = σ.readMoreChildren m0 := by
  obtain ⟨c, ids, hc, hi⟩ := wf_more hw hm
  have key : ∀ X : Store α, Store.Ext σ X →
      (cloneMore X m0).1.readMoreChildren (cloneMore X m0).2 = σ.readMoreChildren m0 := by
    intro X he
    have hm0 : X.getObj m0 = some (.mor c) := by
      rw [he.2 _ (Store.lt_size_of_getObj hc)]; exact hc
    have hcX : c < X.size := lt_of_lt_of_le (Store.lt_size_of_getObj hi) he.1
    simp only [cloneMore, hm0, Store.alloc_snd]
    have hself : (X.alloc (.mor c)).1.getObj X.size = some (.mor c) :=
      Store.getObj_alloc_self X _
    simp only [Store.readMoreChildren, hself]
    rw [Store.readStrs_congr (show (X.alloc (.mor c)).1.getObj c = σ.getObj c by
      rw [Store.getObj_alloc_of_lt X _ hcX]
      exact he.2 _ (Store.lt_size_of_getObj hi))]
    simp only [Store.readMoreChildren, hc]
  rcases hl : L.lookRef with _ | r0 <;> simp only [_clone, hl, hm]
  · exact ⟨_, rfl, key _ ((Store.Ext.rfl σ).alloc _)⟩
  · exact ⟨_, rfl, key _ (((Store.Ext.rfl σ).alloc _).alloc _)⟩

theorem clone_lookRef_none (σ : Store α) (L : Listing α) (hl : L.lookRef = none) :
    (_clone σ L).2.lookRef = none := by
  have := clone_lookRef_isSome σ L
  rw [hl] at this
  simpa [Option.isSome_iff_exists] using this

theorem clone_moreRef_none (σ : Store α) (L : Listing α) (hm : L.moreRef = none) :
    (_clone σ L).2.moreRef = none := by
  have := clone_moreRef_isSome σ L
  rw [hm] at this
  simpa [Option.isSome_iff_exists] using this

theorem clone_view (σ : Store α) (L : Listing α) (hw : L.wf σ = true) :
    (_clone σ L).2.view (_clone σ L).1 = L.view σ := by
  have hlook : (_clone σ L).2.lookRef.map (_clone σ L).1.readArr
      = L.lookRef.map σ.readArr := by
    rcases hl : L.lookRef with _ | r0
    · rw [clone_lookRef_none σ L hl]; rfl
    · obtain ⟨lr, h1, h2⟩ := clone_look_read σ L hw hl
      rw [h1]
      simp [h2]
  have hmore : (_clone σ L).2.moreRef.map (_clone σ L).1.readMoreChildren
      = L.moreRef.map σ.readMoreChildren := by
    rcases hm : L.moreRef with _ | m0
    · rw [clone_moreRef_none σ L hm]; rfl
    · obtain ⟨mr, h1, h2⟩ := clone_more_read σ L hw hm
      rw [h1]
      simp [h2]
  unfold view
  simp only [ListingView.mk.injEq]
  exact ⟨clone_items σ L, by rw [clone_readQry], by rw [clone_readQry],
    clone_uri σ L, clone_isCommentList σ L, hmore, hlook⟩

end Listing

namespace Store

/-- Reading back an object through any extension of the store that
allocated it. -/
theorem getObj_alloc_then (σ : Store α) (o : HObj α) {σ' : Store α}
    (he : Store.Ext (σ.alloc o).1 σ') : σ'.getObj σ.size = some o := by
  rw [he.2 σ.size (by rw [Store.size_alloc]; omega)]
  exact getObj_alloc_self σ o

end Store

namespace Listing

theorem clone_wf (σ : Store α) (L : Listing α) (hw : L.wf σ = true) :
    (_clone σ L).2.wf (_clone σ L).1 = true := by
  obtain ⟨b, a, hq⟩ := wf_query hw
  have hext : Store.Ext σ (_clone σ L).1 := clone_ext σ L
  refine wf_mk ?_ ?_ ?_
  · -- the fresh `_query` object
    refine ⟨(σ.readQry L.queryRef).1, (σ.readQry L.queryRef).2, ?_⟩
    rcases hl : L.lookRef with _ | r0 <;> rcases hm : L.moreRef with _ | m0 <;>
      simp only [_clone, cloneMore, hl, hm, Store.alloc_snd] <;>
      first
        | exact Store.getObj_alloc_then σ _ (Store.Ext.rfl _)
        | exact Store.getObj_alloc_then σ _ ((Store.Ext.rfl _).alloc _)
        | exact Store.getObj_alloc_then σ _ (((Store.Ext.rfl _).alloc _).alloc _)
  · -- the fresh `_cachedLookahead` array
    intro r hr
    rw [Option.mem_def] at hr
    rcases hl : L.lookRef with _ | r0
    · rw [clone_lookRef_none σ L hl] at hr; cases hr
    · obtain ⟨xs, hx⟩ := wf_look hw hl
      rcases hm : L.moreRef with _ | m0 <;>
        revert hr <;>
        simp only [_clone, cloneMore, hl, hm, Store.alloc_snd] <;>
        intro hr <;>
        rw [Option.some_inj] at hr <;>
        subst hr
      · exact ⟨_, Store.getObj_alloc_then _ _ (Store.Ext.rfl _)⟩
      · exact ⟨_, Store.getObj_alloc_then _ _ ((Store.Ext.rfl _).alloc _)⟩
  · -- the fresh `More` object and its shared children array
    intro m hm'
    rw [Option.mem_def] at hm'
    rcases hm : L.moreRef with _ | m0
    · rw [clone_moreRef_none σ L hm] at hm'; cases hm'
    · obtain ⟨c, ids, hc, hi⟩ := wf_more hw hm
      have hcσ : ∀ X : Store α, Store.Ext σ X → X.getObj m0 = some (.mor c) := by
        intro X he
        rw [he.2 _ (Store.lt_size_of_getObj hc)]; exact hc
      rcases hl : L.lookRef with _ | r0 <;>
        revert hm' <;>
        simp only [_clone, cloneMore, hl, hm, Store.alloc_snd] <;>
        intro hm' <;>
        rw [Option.some_inj] at hm' <;>
        subst hm'
      · simp only [hcσ _ ((Store.Ext.rfl σ).alloc _)]
        refine ⟨c, ids, ?_, ?_⟩
        · exact Store.getObj_alloc_then _ _ (Store.Ext.rfl _)
        · rw [Store.getObj_alloc_of_lt _ _ (lt_of_lt_of_le (Store.lt_size_of_getObj hi)
            (((Store.Ext.rfl σ).alloc _).1))]
          rw [((Store.Ext.rfl σ).alloc _).2 _ (Store.lt_size_of_getObj hi)]
          exact hi
      · simp only [hcσ _ (((Store.Ext.rfl σ).alloc _).alloc _)]
        refine ⟨c, ids, ?_, ?_⟩
        · exact Store.getObj_alloc_then _ _ (Store.Ext.rfl _)
        · rw [Store.getObj_alloc_of_lt _ _ (lt_of_lt_of_le (Store.lt_size_of_getObj hi)
            ((((Store.Ext.rfl σ).alloc _).alloc _).1))]
          rw [(((Store.Ext.rfl σ).alloc _).alloc _).2 _ (Store.lt_size_of_getObj hi)]
          exact hi

end Listing


end Snoo

namespace Snoo

open Listing in
theorem lookaheadStep_ext {σ : Store α} {L : Listing α} {amt : JSNum}
    {S : Store α × Listing α × JSNum} (h : lookaheadStep σ L amt = some S) :
    Store.Ext σ S.1 := by
  simp only [lookaheadStep] at h
  rcases hP : (Listing._clone σ L).2.lookRef with _ | r' <;> simp only [hP] at h
  · cases h
  · have hge : σ.size ≤ r' := clone_lookRef_ge σ L r' (by rw [hP]; rfl)
    obtain rfl := Option.some_inj.mp h
    exact (clone_ext σ L).set hge _

set_option maxHeartbeats 1000000 in
open Listing in
theorem regularStep_ext (σ : Store α) (L : Listing α) (amt : JSNum) (append : Bool)
    (resp : Page α) : Store.Ext σ (regularStep σ L amt append resp).1 := by
  simp only [regularStep]
  have hq : (bif append then (Listing._clone σ L).2
      else { (Listing._clone σ L).2 with items := [] }).queryRef = σ.size := by
    rcases append <;> simp [clone_queryRef]
  rw [hq]
  have hset : ∀ o : HObj α, Store.Ext σ ((Listing._clone σ L).1.setObj σ.size o) :=
    fun o => (clone_ext σ L).set (le_refl _) o
  rcases htr : ((Listing._clone σ L).1.readQry σ.size).1.truthy <;>
    simp only [htr, cond_true, cond_false] <;>
  rcases hcl : L.isCommentList <;> simp only [hcl, cond_true, cond_false]
  · exact hset _
  · rcases happ : append <;> simp only [happ, cond_true, cond_false] <;>
      rcases hmo : (Listing._clone σ L).2.moreRef with _ | m0 <;>
      simp only [hmo] <;>
      rcases hlt : amt.ltNat resp.items.length <;>
      simp only [hlt, cond_true, cond_false]
    all_goals
      first
      | exact hset _
      | exact (hset _).alloc _
      | exact ((hset _).alloc _).alloc _
      | exact (((hset _).alloc _).alloc _).alloc _
  · exact hset _
  · rcases happ : append <;> simp only [happ, cond_true, cond_false] <;>
      rcases hmo : (Listing._clone σ L).2.moreRef with _ | m0 <;>
      simp only [hmo] <;>
      rcases hlt : amt.ltNat resp.items.length <;>
      simp only [hlt, cond_true, cond_false]
    all_goals
      first
      | exact hset _
      | exact (hset _).alloc _
      | exact ((hset _).alloc _).alloc _
      | exact (((hset _).alloc _).alloc _).alloc _

open Listing in
theorem commentsStep_ext {σ : Store α} {L : Listing α} {amt : JSNum} {append : Bool}
    {mc : List α} {S : Store α × Listing α} (h : commentsStep σ L amt append mc = some S) :
    Store.Ext σ S.1 := by
  simp only [commentsStep] at h
  rcases happ : append <;> simp only [happ, cond_true, cond_false] at h <;>
    rcases hmo : (Listing._clone σ L).2.moreRef with _ | cm <;> simp only [hmo] at h
  · cases h
  · obtain rfl := Option.some_inj.mp h
    exact ((clone_ext σ L).alloc _).set
      (clone_moreRef_ge σ L cm (by rw [hmo]; rfl)) _
  · cases h
  · obtain rfl := Option.some_inj.mp h
    exact ((clone_ext σ L).alloc _).set
      (clone_moreRef_ge σ L cm (by rw [hmo]; rfl)) _

/-- Frame property of the embedding: a successful `fetchMore` only
allocates fresh objects and writes to objects it allocated itself — every
reference live in the entry store is unchanged in the result store. -/
theorem fetchMore_ext {env : MoreEnv α} : ∀ (fuel : Nat) {σ : Store α} {L : Listing α}
    {opts : RawOpts} {script : List (Page α)} {res : FetchOk α},
    fetchMore env fuel σ L opts script = .ok res → Store.Ext σ res.store := by
  intro fuel
  induction fuel with
  | zero =>
    intro σ L opts script res h
    obtain ⟨amt, -, -, hbr⟩ := fetchMore_inv h
    rcases hbr with ⟨-, hres⟩ | ⟨-, hbr⟩
    · rw [hres]; exact Listing.clone_ext σ L
    rcases hbr with ⟨r0, S, f, -, hf, -, -⟩ | ⟨-, m, mi, mlog, S, -, -, hcs, hres⟩
      | ⟨-, -, f, resp, script', r', hf, -, -, -⟩
    · cases hf
    · rw [hres]; exact commentsStep_ext hcs
    · cases hf
  | succ f ih =>
    intro σ L opts script res h
    obtain ⟨amt, -, -, hbr⟩ := fetchMore_inv h
    rcases hbr with ⟨-, hres⟩ | ⟨-, hbr⟩
    · rw [hres]; exact Listing.clone_ext σ L
    rcases hbr with ⟨r0, S, f', -, hf, hls, hrec⟩ | ⟨-, m, mi, mlog, S, -, -, hcs, hres⟩
      | ⟨-, -, f', resp, script', r', hf, -, hrec, hres⟩
    · have hf' : f' = f := by omega
      subst hf'
      exact (lookaheadStep_ext hls).trans (ih hrec)
    · rw [hres]; exact commentsStep_ext hcs
    · have hf' : f' = f := by omega
      subst hf'
      have hext2 : Store.Ext (regularStep σ L amt (parseOptions opts).append resp).1
          r'.store := ih hrec
      rw [hres]
      exact (regularStep_ext σ L amt (parseOptions opts).append resp).trans hext2

end Snoo

namespace Snoo

/-- Forward evaluation of the finished / non-positive-amount branch of
`fetchMore`. -/
theorem fetchMore_finish {env : MoreEnv α} {fuel : Nat} {σ : Store α} {L : Listing α}
    {opts : RawOpts} {script : List (Page α)} {amt : JSNum}
    (hpa : (parseOptions opts).amount = some amt) (hnan : amt.isNaN = false)
    (hfin : (amt.le0 || L.isFinished σ) = true) :
    fetchMore env fuel σ L opts script =
      .ok { listing := bif (parseOptions opts).append then (Listing._clone σ L).2
              else { (Listing._clone σ L).2 with items := [] },
            store := (Listing._clone σ L).1, log := [], rest := script } := by
  rcases fuel with _ | f <;>
    simp only [fetchMore, fetchMoreMain, hpa, hnan, hfin, cond_false, cond_true]

/-- The view of a Listing whose items field was replaced. -/
theorem view_set_items (σ : Store α) (L : Listing α) (xs : List α) :
    Listing.view σ { L with items := xs } = { L.view σ with items := xs } := rfl

end Snoo

namespace Snoo

/-- **C1**: for a finished Listing (or a non-positive amount), `fetchMore`
resolves — without issuing any network request and without consuming the
response script — to a clone observably equal to the Listing itself
(`append` defaulting to true), or to an emptied such clone when
`append = false`.  The modelled `amount` is an actual number (`NaN` is the
subject of C10 and rejects before this branch). -/
theorem c1_finished_fetchMore_idempotent {env : MoreEnv α} {fuel : Nat} {σ : Store α}
    {L : Listing α} {opts : RawOpts} {script : List (Page α)} (amt : JSNum)
    (hw : L.wf σ = true)
    (hpa : (parseOptions opts).amount = some amt) (hnan : amt.isNaN = false)
    (hfin : L.isFinished σ = true ∨ amt.le0 = true) :
    ∃ res, fetchMore env fuel σ L opts script = .ok res ∧
      res.log = [] ∧ res.rest = script ∧
      res.listing.view res.store =
        (bif (parseOptions opts).append then L.view σ
          else { L.view σ with items := [] }) := by
  have hg : (amt.le0 || L.isFinished σ) = true := by
    rcases hfin with h | h <;> simp [h]
  refine ⟨_, fetchMore_finish hpa hnan hg, rfl, rfl, ?_⟩
  have hv := Listing.clone_view σ L hw
  rcases happ : (parseOptions opts).append <;> simp only [cond_false, cond_true]
  · rw [view_set_items, hv]
  · exact hv

def witEnv : MoreEnv Nat := { infoItem := fun s => s.length, treeItems := fun _ => [] }

def witStore : Store Nat := ⟨[.qry .null .null]⟩

def witListing : Listing Nat :=
  { items := [1, 2, 3], queryRef := 0, uri := some "r/all/hot", mthd := "get",
    isCommentList := false, moreRef := none, lookRef := none }

/-- Witness for C1 at a concrete finished Listing. -/
theorem c1_witness :
    ∃ res, fetchMore witEnv 1 witStore witListing (.num (.fin 5))
        [⟨[9], .undef, .null, none⟩] = .ok res ∧
      res.log = [] ∧ res.rest = [⟨[9], .undef, .null, none⟩] ∧
      res.listing.view res.store =
        (bif (parseOptions (.num (.fin 5))).append then witListing.view witStore
          else { witListing.view witStore with items := [] }) :=
  c1_finished_fetchMore_idempotent (.fin 5) (by decide) (by decide) (by decide)
    (Or.inl (by decide))

/-- **C4**: `fetchMore` (and `fetchAll`, which is `fetchMore` at amount
`Infinity`, as the last conjunct records) never mutates the original
Listing: after a successful call its observable view — items, `before` and
`after` cursors, More stub children and cached lookahead contents — is
unchanged, and in fact every reference live in the entry store is
unchanged, so all mutation happened on freshly allocated clone state. -/
theorem c4_fetchMore_no_mutation {env : MoreEnv α} {fuel : Nat} {σ : Store α}
    {L : Listing α} {opts : RawOpts} {script : List (Page α)} {res : FetchOk α}
    (hw : L.wf σ = true) (h : fetchMore env fuel σ L opts script = .ok res) :
    L.view res.store = L.view σ ∧ L.wf res.store = true ∧
      σ.size ≤ res.store.size ∧
      (∀ r, r < σ.size → res.store.getObj r = σ.getObj r) ∧
      (∀ sk ap, fetchAll env fuel σ L sk ap script
        = fetchMore env fuel σ L (.obj (some .posInf) sk ap) script) := by
  have he := fetchMore_ext fuel h
  obtain ⟨hv, hw'⟩ := Listing.view_wf_of_ext hw he
  exact ⟨hv, hw', he.1, he.2, fun _ _ => rfl⟩

/-- Witness for C4: a concrete unfinished Listing and a one-page fetch. -/
theorem c4_witness :
    ∃ res, fetchMore witEnv 2 (⟨[.qry .null (.val "x")]⟩ : Store Nat) witListing
        (.obj (some (.fin 1)) none none) [⟨[9], .undef, .null, none⟩] = .ok res ∧
      witListing.view res.store = witListing.view (⟨[.qry .null (.val "x")]⟩ : Store Nat) := by
  have hrun : fetchMore witEnv 2 (⟨[.qry .null (.val "x")]⟩ : Store Nat) witListing
      (.obj (some (.fin 1)) none none) [⟨[9], .undef, .null, none⟩]
      = .ok ⟨⟨[1, 2, 3, 9], 2, some "r/all/hot", "get", false, none, none⟩,
          ⟨[.qry .null (.val "x"), .qry .null .null, .qry .null .null]⟩,
          [.page (some "r/all/hot") "get" none (some "x") (some (.fin 1))], []⟩ := by
    rfl
  exact ⟨_, hrun, (c4_fetchMore_no_mutation (by decide) hrun).1⟩

end Snoo

namespace Snoo

/-- **C2**: a Listing is finished iff — comment-list case — its cached
lookahead buffer is empty (absent or an empty array) and an attached More
stub exists whose children list is empty; — regular case — it has no
(truthy) source URI or both its `before` and `after` query cursors are
exactly `null`.  In particular an empty Listing whose cursors are still
`undefined` is not finished, since `Cursor.undef ≠ Cursor.null`. -/
theorem c2_isFinished_characterization (σ : Store α) (L : Listing α) :
    L.isFinished σ = true ↔
      (if L.isCommentList = true then
        ((∀ r ∈ L.lookRef, σ.readArr r = []) ∧
          ∃ m, L.moreRef = some m ∧ σ.readMoreChildren m = [])
      else
        (uriTruthy L.uri = false ∨
          ((σ.readQry L.queryRef).2 = Cursor.null ∧
            (σ.readQry L.queryRef).1 = Cursor.null))) := by
  rcases hcl : L.isCommentList <;>
    simp only [hcl, Listing.isFinished, cond_true, cond_false]
  case false =>
    rw [if_neg (by simp)]
    simp [Bool.or_eq_true, Bool.and_eq_true, Bool.not_eq_true']
  case true =>
    rw [if_pos trivial]
    simp only [Bool.and_eq_true]
    constructor
    · rintro ⟨h1, h2⟩
      refine ⟨?_, ?_⟩
      · intro r hr
        rw [Option.mem_def] at hr
        rw [hr] at h1
        exact List.isEmpty_iff.mp h1
      · rcases hm : L.moreRef with _ | m
        · rw [hm] at h2; cases h2
        · rw [hm] at h2
          exact ⟨m, rfl, List.isEmpty_iff.mp h2⟩
    · rintro ⟨h1, m, hm, hc⟩
      refine ⟨?_, ?_⟩
      · rcases hl : L.lookRef with _ | r
        · rfl
        · exact List.isEmpty_iff.mpr (h1 r (by rw [hl]; rfl))
      · rw [hm]
        exact List.isEmpty_iff.mpr hc
end Snoo

namespace Snoo

/-- **C10**: a `fetchMore` call whose amount (the `amount` property of the
options object, or the options value itself when a bare number is passed)
is missing, not a number, or `NaN` rejects with `InvalidMethodCallError`;
the error is raised before the network or the Listing's state is touched
(the embedding returns the error without consuming the script, logging a
call, or reading the store), for finished and unfinished Listings alike. -/
theorem c10_invalid_amount_rejects {env : MoreEnv α} {fuel : Nat} {σ : Store α}
    {L : Listing α} {opts : RawOpts} {script : List (Page α)}
    (h : (parseOptions opts).amount = none ∨ (parseOptions opts).amount = some .nan) :
    fetchMore env fuel σ L opts script = .error .invalidMethodCall := by
  rcases fuel with _ | f <;> rcases h with h | h <;>
    simp [fetchMore, fetchMoreMain, h, JSNum.isNaN]

/-- Witness for C10: an options object with no amount, and one with a `NaN`
amount, each rejecting on a finished and on an unfinished Listing. -/
theorem c10_witness :
    fetchMore witEnv 1 witStore witListing (.obj none (some true) none) [] =
        .error .invalidMethodCall ∧
      fetchMore witEnv 1 (⟨[.qry .null (.val "x")]⟩ : Store Nat) witListing
        (.obj (some .nan) none none) [] = .error .invalidMethodCall :=
  ⟨c10_invalid_amount_rejects (Or.inl (by decide)),
    c10_invalid_amount_rejects (Or.inr (by decide))⟩

end Snoo

namespace Snoo

/-- The ids carried by a bulk-info call (helper for stating C9). -/
def infoIds : NetCall → List String
  | .info ids => ids
  | _ => []

theorem moreFetchMore_drain_aux (env : MoreEnv α) (children : List String) :
    ∀ (fuel start : Nat) (amt : JSNum),
    (amt = .posInf ∨ ∃ a : Int, amt = .fin a ∧ ((children.length - start : Nat) : Int) ≤ a) →
    children.length - start ≤ fuel →
    ∃ log, moreFetchMore env fuel children amt (some true) start =
      .ok ((children.drop start).map (fun i => env.infoItem ("t1_" ++ i)), log) ∧
      log.length = (children.length - start + (MAX_API_INFO_AMOUNT - 1)) / MAX_API_INFO_AMOUNT ∧
      (∀ c ∈ log, ∃ ids, c = .info ids ∧ ids.length ≤ MAX_API_INFO_AMOUNT) ∧
      (log.map infoIds).flatten = (children.drop start).map (fun i => "t1_" ++ i) := by
  have hbase : ∀ (fuel start : Nat) (amt : JSNum), children.length ≤ start →
      moreFetchMore env fuel children amt (some true) start = .ok ([], []) := by
    intro fuel start amt hge
    have hguard : (amt.le0 || decide (start ≥ children.length)) = true := by simp [hge]
    rcases fuel with _ | f <;>
      simp [moreFetchMore, moreFetchMoreBody, hguard]
  intro fuel
  induction fuel with
  | zero =>
    intro start amt hamt hfuel
    have hge : children.length ≤ start := by omega
    refine ⟨[], ?_, ?_, by simp, ?_⟩
    · rw [hbase 0 start amt hge, List.drop_eq_nil_of_le hge]
      rfl
    · have : children.length - start = 0 := by omega
      rw [this]
      rfl
    · rw [List.drop_eq_nil_of_le hge]
      rfl
  | succ f ih =>
    intro start amt hamt hfuel
    by_cases hge : children.length ≤ start
    · refine ⟨[], ?_, ?_, by simp, ?_⟩
      · rw [hbase (f + 1) start amt hge, List.drop_eq_nil_of_le hge]
        rfl
      · have : children.length - start = 0 := by omega
        rw [this]
        rfl
      · rw [List.drop_eq_nil_of_le hge]
        rfl
    · push_neg at hge
      set rem := children.length - start with hremdef
      have hrem : 0 < rem := by omega
      have hdlen : (children.drop start).length = rem := by
        rw [List.length_drop]
      have hle0 : amt.le0 = false := by
        rcases hamt with h | ⟨a, ha, hle⟩
        · rw [h]; rfl
        · rw [ha]; simp [JSNum.le0]; omega
      have hguard : (amt.le0 || decide (start ≥ children.length)) = false := by
        simp [hle0]; omega
      set k := min rem MAX_API_INFO_AMOUNT with hkdef
      have hk1 : 1 ≤ k := by
        rw [hkdef]; simp [MAX_API_INFO_AMOUNT]; omega
      have hkrem : k ≤ rem := by rw [hkdef]; omega
      have hsl : getNextIdSlice children start amt MAX_API_INFO_AMOUNT
          = (children.drop start).take k := by
        unfold getNextIdSlice
        rw [List.take_eq_take]
        rw [hdlen]
        rcases hamt with h | ⟨a, ha, hle⟩
        · rw [h]
          simp [JSNum.toCount, hkdef, MAX_API_INFO_AMOUNT]
          omega
        · rw [ha]
          simp [JSNum.toCount, hkdef, MAX_API_INFO_AMOUNT]
          have : rem ≤ a.toNat := by omega
          omega
      have hslen : (getNextIdSlice children start amt MAX_API_INFO_AMOUNT).length = k := by
        rw [hsl, List.length_take, hdlen]
        omega
      have hA : (children.drop start).take k ++ children.drop (start + k)
          = children.drop start := by
        have : children.drop (start + k) = (children.drop start).drop k := by
          rw [List.drop_drop, Nat.add_comm]
        rw [this, List.take_append_drop]
      have hamt' : amt.subNat k = .posInf ∨
          ∃ a : Int, amt.subNat k = .fin a ∧
            ((children.length - (start + k) : Nat) : Int) ≤ a := by
        rcases hamt with h | ⟨a, ha, hle⟩
        · rw [h]; exact Or.inl rfl
        · rw [ha]
          refine Or.inr ⟨a - k, rfl, ?_⟩
          omega
      obtain ⟨log, hrec, hlen, hinfo, hjoin⟩ := ih (start + k) (amt.subNat k)
        hamt' (by omega)
      refine ⟨.info ((getNextIdSlice children start amt MAX_API_INFO_AMOUNT).map
          (fun i => "t1_" ++ i)) :: log, ?_, ?_, ?_, ?_⟩
      · simp only [moreFetchMore, moreFetchMoreBody, hguard, cond_false,
          Option.getD_some, Bool.not_true, List.length_map, hslen, hrec]
        simp only [List.map_map, Function.comp_def]
        rw [← List.map_append, hsl, hA]
      · simp only [List.length_cons, hlen]
        have h100 : (MAX_API_INFO_AMOUNT : Nat) = 100 := rfl
        rw [h100] at hkdef ⊢
        have hs : children.length - (start + k) = rem - k := by omega
        rw [hs]
        rcases Nat.le_total rem 100 with hc | hc
        · have hk2 : k = rem := by omega
          have h1 : rem - k = 0 := by omega
          rw [h1]
          have h2 : rem + (100 - 1) = (rem - 1) + 100 := by omega
          rw [h2, Nat.add_div_right _ (by omega)]
          rw [Nat.div_eq_of_lt (by omega), Nat.div_eq_of_lt (by omega)]
        · have hk2 : k = 100 := by omega
          have h2 : rem + (100 - 1) = (rem - k + (100 - 1)) + 100 := by omega
          rw [h2, Nat.add_div_right _ (by omega)]
      · intro c hc
        rcases hc with _ | hc
        · refine ⟨_, rfl, ?_⟩
          rw [List.length_map, hslen, hkdef]
          omega
        · exact hinfo _ (by assumption)
      · simp only [List.map_cons, List.flatten_cons, infoIds]
        rw [hjoin, ← List.map_append, hsl, hA]
end Snoo

namespace Snoo

/-- **C9**: a More stub with `N` child identifiers, fetched with
`skipReplies = true` and `amount ≥ N`, issues exactly `⌈N / 100⌉` bulk-info
requests — chunks of at most `MAX_API_INFO_AMOUNT = 100` ids, each
prefixed with `t1_`, concatenating in the original order of the children
list — and resolves with exactly the `N` items of those children in the
original order.  Fuel `N` suffices, witnessing termination: each recursive
call advances `startIndex` by the length of its non-empty chunk. -/
theorem c9_more_stub_draining (env : MoreEnv α) (children : List String)
    (amt : JSNum) (fuel : Nat)
    (hamt : amt = .posInf ∨ ∃ a : Int, amt = .fin a ∧ (children.length : Int) ≤ a)
    (hfuel : children.length ≤ fuel) :
    ∃ log, moreFetchMore env fuel children amt (some true) 0 =
      .ok (children.map (fun i => env.infoItem ("t1_" ++ i)), log) ∧
      log.length = (children.length + (MAX_API_INFO_AMOUNT - 1)) / MAX_API_INFO_AMOUNT ∧
      (∀ c ∈ log, ∃ ids, c = .info ids ∧ ids.length ≤ MAX_API_INFO_AMOUNT) ∧
      (log.map infoIds).flatten = children.map (fun i => "t1_" ++ i) := by
  simpa using moreFetchMore_drain_aux env children fuel 0 amt (by simpa using hamt)
    (by omega)

/-- Witness for C9 on a concrete three-child stub. -/
theorem c9_witness :
    ∃ log, moreFetchMore witEnv 3 ["a", "bb", "ccc"] (.fin 5) (some true) 0 =
      .ok (["a", "bb", "ccc"].map (fun i => witEnv.infoItem ("t1_" ++ i)), log) ∧
      log.length = ((["a", "bb", "ccc"] : List String).length
        + (MAX_API_INFO_AMOUNT - 1)) / MAX_API_INFO_AMOUNT ∧
      (∀ c ∈ log, ∃ ids, c = .info ids ∧ ids.length ≤ MAX_API_INFO_AMOUNT) ∧
      (log.map infoIds).flatten = ["a", "bb", "ccc"].map (fun i => "t1_" ++ i) :=
  c9_more_stub_draining witEnv ["a", "bb", "ccc"] (.fin 5) 3
    (Or.inr ⟨5, rfl, by decide⟩) (by decide)

end Snoo

namespace Snoo

/-- A requester state for the pipeline examples: a cached token valid for
an hour, refresh credentials, and an open ratelimit window. -/
def c7State : AuthState :=
  { accessToken := some "tok", tokenExpiration := some 4600000,
    refreshToken := some "refresh", username := none, password := none,
    scope := none, ratelimitRemaining := some 300, ratelimitExpiration := some 0 }

def c7Req : ReqOptions := { uri := "user/spez/about", mthd := "get" }

/-- **C7** (the claim fails on the code): with the default configuration, a
GET — an idempotent verb — failing with 502 on its first attempt (two
attempts remaining in the budget, 502 in the retryable set) is *not*
retried: the error propagates immediately, because the filtered-catch
handler is passed as the fifth argument of native `Promise.prototype.catch`
(after four non-callable filter objects) and is never invoked.  The last
conjunct shows that the handler as written (`retryCatchHandler`) would have
retried this very request with the attempt counter incremented and obtained
the scripted success. -/
theorem c7_transient_retry_never_happens :
    oauthRequest defaultPipeConfig 1000000 5 c7State c7Req 1
        ([.httpErr 502, .httpOk 7] : List (NetEvent Nat)) = .error (.httpStatus 502) ∧
      c7Req.mthd ∈ IDEMPOTENT_HTTP_VERBS ∧
      1 < defaultPipeConfig.maxRetryAttempts ∧
      502 ∈ defaultPipeConfig.retryErrorCodes ∧
      retryCatchHandler defaultPipeConfig 1000000 5 c7State c7Req 1
          ([.httpOk 7] : List (NetEvent Nat)) 502
        = .ok (7, c7State, [⟨"user/spez/about", "get", 2⟩], []) := by
  refine ⟨by rfl, by decide, by decide, by decide, by rfl⟩

/-- **C8**: a 401 on a request dispatched with a cached, locally-unexpired
token whose remaining lifetime is under `MAX_TOKEN_LATENCY` makes the
pipeline invalidate the token (`accessToken`/`tokenExpiration := null`) and
re-execute the same request with the `attempts` counter unchanged — the
first conjunct is that equation, the dispatched-call log recording the
unchanged attempt number; a 401 when the remaining lifetime is at least the
threshold propagates to the caller — the second conjunct. -/
theorem c8_stale_token_recovery {β : Type} (cfg : PipeConfig) (now e : Int) (t : String)
    (st : AuthState) (opts : ReqOptions) (attempts fuel : Nat) (rest : List (NetEvent β))
    (hgate : (decide (jsNum0 st.ratelimitRemaining < 1) &&
        decide (now < jsNum0 st.ratelimitExpiration) &&
        !cfg.continueAfterRatelimitError) = false)
    (htok : st.accessToken = some t)
    (hexp : st.tokenExpiration = some e)
    (hnotexp : now ≤ e) :
    ((e - now < MAX_TOKEN_LATENCY) →
      oauthRequest cfg now (fuel + 1) st opts attempts (.httpErr 401 :: rest) =
        (match oauthRequest cfg now fuel
            { st with accessToken := none, tokenExpiration := none } opts attempts rest with
          | .error er => .error er
          | .ok (b, st2, log, rest2) =>
            .ok (b, st2, ⟨opts.uri, opts.mthd, attempts⟩ :: log, rest2))) ∧
    (MAX_TOKEN_LATENCY ≤ e - now →
      oauthRequest cfg now (fuel + 1) st opts attempts (.httpErr 401 :: rest) =
        .error (.httpStatus 401)) := by
  have hupd : updateAccessToken now st (.httpErr 401 :: rest)
      = .ok (st.accessToken, st, .httpErr 401 :: rest) := by
    have hguard : ((st.accessToken.isNone || decide (now > jsNum0 st.tokenExpiration)) &&
        (st.refreshToken.isSome || (st.username.isSome && st.password.isSome))) = false := by
      rw [htok, hexp]
      simp [jsNum0]
      omega
    simp only [updateAccessToken, hguard, cond_false]
  constructor
  · intro hlat
    have hcond : ((401 : Nat) == 401 && st.accessToken.isSome &&
        decide (jsNum0 st.tokenExpiration - now < MAX_TOKEN_LATENCY)) = true := by
      rw [htok, hexp]
      simp [jsNum0]
      omega
    simp only [oauthRequest, oauthRequestStep, hgate, cond_false, hupd, hcond, cond_true]
  · intro hlat
    have hcond : ((401 : Nat) == 401 && st.accessToken.isSome &&
        decide (jsNum0 st.tokenExpiration - now < MAX_TOKEN_LATENCY)) = false := by
      rw [htok, hexp]
      simp [jsNum0]
      omega
    simp only [oauthRequest, oauthRequestStep, hgate, cond_false, hupd, hcond]

/-- Witness for C8: concrete near-expiry token, 401 then refresh then
success; the two dispatched calls both carry attempt number 1, and the
caller observes only the success. -/
theorem c8_witness :
    oauthRequest defaultPipeConfig 1000000 2
        { c7State with tokenExpiration := some 1003000 } c7Req 1
        ([.httpErr 401, .tokenResp "tok2" 3600 none none "identity", .httpOk 7]
          : List (NetEvent Nat)) =
      .ok (7, { c7State with accessToken := some "tok2", tokenExpiration := some (1000000 + 3600 * 1000), scope := some ["identity"] },
        [⟨"user/spez/about", "get", 1⟩, ⟨"user/spez/about", "get", 1⟩], []) := by
  rw [(c8_stale_token_recovery defaultPipeConfig 1000000 1003000 "tok"
      { c7State with tokenExpiration := some 1003000 } c7Req 1 1
      ([.tokenResp "tok2" 3600 none none "identity", .httpOk 7] : List (NetEvent Nat))
      (by decide) (by decide) (by decide) (by decide)).1 (by decide)]
  rfl

end Snoo


namespace Snoo

theorem lookaheadStep_isCommentList {σ : Store α} {L : Listing α} {amt : JSNum}
    {S : Store α × Listing α × JSNum} (h : lookaheadStep σ L amt = some S) :
    S.2.1.isCommentList = L.isCommentList := by
  simp only [lookaheadStep] at h
  rcases hl : (Listing._clone σ L).2.lookRef with _ | r' <;> simp only [hl] at h
  · exact absurd h (by simp)
  · rw [← (Option.some.injEq _ _).mp h]
    exact Listing.clone_isCommentList σ L

theorem regularStep_isCommentList (σ : Store α) (L : Listing α) (amt : JSNum)
    (append : Bool) (resp : Page α) :
    (regularStep σ L amt append resp).2.isCommentList = L.isCommentList := by
  have hc := Listing.clone_isCommentList σ L
  simp only [regularStep]
  rcases hcl : L.isCommentList <;> simp only [hcl, cond_true, cond_false] <;>
    rcases append <;> simp only [cond_true, cond_false] <;>
    rcases htr : ((Listing._clone σ L).1.readQry
      (Listing._clone σ L).2.queryRef).1.truthy <;>
    (try simp only [htr, cond_true, cond_false]) <;>
    rcases hm : (Listing._clone σ L).2.moreRef <;> (try simp only [hm]) <;>
    rcases hlt : amt.ltNat resp.items.length <;>
    (try simp only [hlt, cond_true, cond_false]) <;>
    exact hc.trans hcl

theorem moreFetchMore_no_page {env : MoreEnv α} (fuel : Nat) :
    ∀ {children : List String} {amt : JSNum} {sk : Option Bool} {si : Nat}
      {mi : List α} {mlog : List NetCall},
      moreFetchMore env fuel children amt sk si = .ok (mi, mlog) →
      ∀ u m b a lim, NetCall.page u m b a lim ∉ mlog := by
  induction fuel with
  | zero =>
    intro children amt sk si mi mlog h u m b a lim
    simp only [moreFetchMore, moreFetchMoreBody] at h
    rcases hg : (amt.le0 || decide (si ≥ children.length)) <;>
      simp only [hg, cond_true, cond_false] at h
    · rcases hsk : (!(sk.getD false)) <;> simp only [hsk, cond_true, cond_false] at h
      · exact absurd h (by simp)
      · have h2 : [NetCall.tree si] = mlog :=
          congrArg Prod.snd ((Except.ok.injEq _ _).mp h)
        rw [← h2]
        simp
    · have h2 : ([] : List NetCall) = mlog :=
        congrArg Prod.snd ((Except.ok.injEq _ _).mp h)
      rw [← h2]
      simp
  | succ f ih =>
    intro children amt sk si mi mlog h u m b a lim
    simp only [moreFetchMore, moreFetchMoreBody] at h
    rcases hg : (amt.le0 || decide (si ≥ children.length)) <;>
      simp only [hg, cond_true, cond_false] at h
    · rcases hsk : (!(sk.getD false)) <;> simp only [hsk, cond_true, cond_false] at h
      · rcases hrec : moreFetchMore env f children
            (amt.subNat ((getNextIdSlice children si amt MAX_API_INFO_AMOUNT).map
              (fun i => "t1_" ++ i)).length) sk
            (si + ((getNextIdSlice children si amt MAX_API_INFO_AMOUNT).map
              (fun i => "t1_" ++ i)).length) with e | p
        · rw [hrec] at h; exact absurd h (by simp)
        · obtain ⟨prest, plog⟩ := p
          rw [hrec] at h
          have h2 : NetCall.info ((getNextIdSlice children si amt MAX_API_INFO_AMOUNT).map
              (fun i => "t1_" ++ i)) :: plog = mlog :=
            congrArg Prod.snd ((Except.ok.injEq _ _).mp h)
          rw [← h2]
          intro hmem
          rcases List.mem_cons.mp hmem with hh | ht
          · exact absurd hh (by simp)
          · exact ih hrec u m b a lim ht
      · have h2 : [NetCall.tree si] = mlog :=
          congrArg Prod.snd ((Except.ok.injEq _ _).mp h)
        rw [← h2]
        simp
    · have h2 : ([] : List NetCall) = mlog :=
        congrArg Prod.snd ((Except.ok.injEq _ _).mp h)
      rw [← h2]
      simp

theorem fetchMore_page_limits {env : MoreEnv α} (fuel : Nat) :
    ∀ {σ : Store α} {L : Listing α} {opts : RawOpts} {script : List (Page α)}
      {r : FetchOk α},
      fetchMore env fuel σ L opts script = .ok r →
      L.isCommentList = false →
      ∀ u m b a lim, NetCall.page u m b a lim ∈ r.log →
        ∃ n, lim = some (JSNum.fin n) ∧ 0 < n ∧ n ≤ maxSafeInteger := by
  induction fuel with
  | zero =>
    intro σ L opts script r h hcl u m b a lim hmem
    obtain ⟨amt, hpa, hnan, hbr⟩ := fetchMore_inv h
    rcases hbr with ⟨hg, hr⟩ | ⟨hg, hlook | hcom | hreg⟩
    · rw [hr] at hmem; exact absurd hmem (by simp)
    · obtain ⟨r0, S, f, _, hf, _⟩ := hlook; exact absurd hf (by omega)
    · obtain ⟨hlk, m0, mi, mlog, S, hmr, hmf, hcs, hr⟩ := hcom
      rw [hr] at hmem
      exact absurd hmem (moreFetchMore_no_page _ hmf u m b a lim)
    · obtain ⟨hl1, hm1, f, resp, script', r', hf, hrest⟩ := hreg
      exact absurd hf (by omega)
  | succ f ih =>
    intro σ L opts script r h hcl u m b a lim hmem
    obtain ⟨amt, hpa, hnan, hbr⟩ := fetchMore_inv h
    rcases hbr with ⟨hg, hr⟩ | ⟨hg, hlook | hcom | hreg⟩
    · rw [hr] at hmem; exact absurd hmem (by simp)
    · obtain ⟨r0, S, f', hl, hf, hls, hrec⟩ := hlook
      have hf' : f' = f := by omega
      subst hf'
      exact ih hrec (by rw [lookaheadStep_isCommentList hls]; exact hcl) u m b a lim hmem
    · obtain ⟨hlk, m0, mi, mlog, S, hmr, hmf, hcs, hr⟩ := hcom
      rw [hr] at hmem
      exact absurd hmem (moreFetchMore_no_page _ hmf u m b a lim)
    · obtain ⟨hl1, hm1, f', resp, script', r', hf, hs, hrec, hr⟩ := hreg
      have hf' : f' = f := by omega
      subst hf'
      rw [hr] at hmem
      rcases List.mem_cons.mp hmem with hhead | htail
      · have hle : amt.le0 = false := by
          rcases hle2 : amt.le0
          · rfl
          · rw [hle2] at hg; simp at hg
        simp only [pageReq, hcl, cond_false, NetCall.page.injEq] at hhead
        have hlim : lim = some (amt.minInt maxSafeInteger) := hhead.2.2.2.2
        rcases amt with _ | _ | _ | n
        · exact absurd hnan (by simp [JSNum.isNaN])
        · exact ⟨maxSafeInteger, by rw [hlim]; rfl,
            by norm_num [maxSafeInteger], le_refl _⟩
        · exact absurd hle (by simp [JSNum.le0])
        · have hn : ¬ (n ≤ 0) := by simpa [JSNum.le0] using hle
          refine ⟨min n maxSafeInteger, by rw [hlim]; rfl, ?_, min_le_right _ _⟩
          exact lt_min (by omega) (by norm_num [maxSafeInteger])
      · exact ih hrec
          (by rw [regularStep_isCommentList]; exact hcl) u m b a lim htail

/-- **C5**: every page request logged by a successful `fetchMore` on a
regular (non-comment) Listing carries a finite positive `limit` of at most
`Number.MAX_SAFE_INTEGER` — in particular never the unbounded `Infinity` —
and when the Listing dispatches straight to the regular strategy (no cached
lookahead, no More stub, not finished, positive amount) the first request's
limit is exactly `Math.min(amount, Number.MAX_SAFE_INTEGER)`, so `fetchAll`
(`amount = Infinity`) sends exactly `MAX_SAFE_INTEGER`. -/
theorem c5_limit_clamped {env : MoreEnv α} {fuel : Nat} {σ : Store α} {L : Listing α}
    {opts : RawOpts} {script : List (Page α)} {r : FetchOk α} {amt : JSNum}
    (h : fetchMore env fuel σ L opts script = .ok r)
    (hcl : L.isCommentList = false)
    (hamt : (parseOptions opts).amount = some amt) :
    (∀ u m b a lim, NetCall.page u m b a lim ∈ r.log →
      (∃ n, lim = some (JSNum.fin n) ∧ 0 < n ∧ n ≤ maxSafeInteger) ∧
        lim ≠ some JSNum.posInf) ∧
    (L.lookRef = none → L.moreRef = none → (amt.le0 || L.isFinished σ) = false →
      ∃ rest, r.log =
        NetCall.page L.uri L.mthd (σ.readQry L.queryRef).1.toParam
          (σ.readQry L.queryRef).2.toParam (some (amt.minInt maxSafeInteger)) :: rest) := by
  constructor
  · intro u m b a lim hmem
    obtain ⟨n, hn, hpos, hle⟩ := fetchMore_page_limits fuel h hcl u m b a lim hmem
    refine ⟨⟨n, hn, hpos, hle⟩, ?_⟩
    rw [hn]
    simp
  · intro hl hm hg
    obtain ⟨amt', hpa, hnan, hbr⟩ := fetchMore_inv h
    have hae : amt' = amt := by
      rw [hamt] at hpa
      exact (Option.some.injEq _ _).mp hpa.symm
    subst hae
    rcases hbr with ⟨hg', _⟩ | ⟨_, hlook | hcom | hreg⟩
    · rw [hg'] at hg; cases hg
    · obtain ⟨r0, S, f', hl', _⟩ := hlook
      rw [hl] at hl'; cases hl'
    · obtain ⟨hlk, m0, mi, mlog, S, hmr, _⟩ := hcom
      rw [hm] at hmr; cases hmr
    · obtain ⟨_, _, f', resp, script', r', hf, hs, hrec, hr⟩ := hreg
      refine ⟨r'.log, ?_⟩
      rw [hr]
      simp only [pageReq, hcl, cond_false]

/-- Witness for C5: `fetchAll` (amount `Infinity`) on a concrete regular
Listing with an `after` cursor; the single page request carries
`limit = MAX_SAFE_INTEGER = 9007199254740991`. -/
theorem c5_witness :
    ∃ res, fetchAll witEnv 3 (⟨[.qry .null (.val "x")]⟩ : Store Nat) witListing none none
        [⟨[9, 10], .undef, .null, none⟩] = .ok res ∧
      ((∃ n, (some (JSNum.fin 9007199254740991) : Option JSNum) = some (JSNum.fin n) ∧
          0 < n ∧ n ≤ maxSafeInteger) ∧
        (some (JSNum.fin 9007199254740991) : Option JSNum) ≠ some JSNum.posInf) ∧
      ∃ rest, res.log =
        NetCall.page witListing.uri witListing.mthd
          ((⟨[.qry .null (.val "x")]⟩ : Store Nat).readQry witListing.queryRef).1.toParam
          ((⟨[.qry .null (.val "x")]⟩ : Store Nat).readQry witListing.queryRef).2.toParam
          (some (JSNum.posInf.minInt maxSafeInteger)) :: rest := by
  have hrun : fetchAll witEnv 3 (⟨[.qry .null (.val "x")]⟩ : Store Nat) witListing none none
      [⟨[9, 10], .undef, .null, none⟩]
      = .ok ⟨⟨[1, 2, 3, 9, 10], 2, some "r/all/hot", "get", false, none, none⟩,
          ⟨[.qry .null (.val "x"), .qry .null .null, .qry .null .null]⟩,
          [.page (some "r/all/hot") "get" none (some "x") (some (.fin 9007199254740991))],
          []⟩ := by rfl
  have hc5 := c5_limit_clamped hrun (by decide)
    (show (parseOptions (RawOpts.obj (some JSNum.posInf) none none)).amount
      = some JSNum.posInf from by decide)
  refine ⟨_, hrun, ⟨?_, ?_⟩, ?_⟩
  · exact (hc5.1 (some "r/all/hot") "get" none (some "x")
      (some (.fin 9007199254740991)) (by decide)).1
  · exact (hc5.1 (some "r/all/hot") "get" none (some "x")
      (some (.fin 9007199254740991)) (by decide)).2
  · exact hc5.2 rfl rfl (by decide)

end Snoo

namespace Snoo

/-- The merged (pre-splice) item array of one `_fetchMoreRegular` response
step: the clone's items (emptied unless `append`) with the page prepended
under reverse pagination (truthy `before` cursor) or appended under forward
pagination. -/
def mergedItems (σ : Store α) (L : Listing α) (append : Bool) (resp : Page α) :
    List α :=
  bif (σ.readQry L.queryRef).1.truthy then
    resp.items ++ (bif append then L.items else [])
  else (bif append then L.items else []) ++ resp.items

/-- Dispatch equation: an unfinished Listing with a cached lookahead spends
one fuel level on the splice step and recurses with the bare remaining
amount. -/
theorem fetchMore_lookahead_step (env : MoreEnv α) (f : Nat)
    (script : List (Page α)) {σ : Store α}
    {L : Listing α} {opts : RawOpts} {amt : JSNum} {r0 : Nat}
    {S : Store α × Listing α × JSNum}
    (hpa : (parseOptions opts).amount = some amt) (hnan : amt.isNaN = false)
    (hg : (amt.le0 || L.isFinished σ) = false)
    (hl : L.lookRef = some r0)
    (hls : lookaheadStep σ L amt = some S) :
    fetchMore env (f + 1) σ L opts script =
      fetchMore env f S.1 S.2.1 (.num S.2.2) script := by
  simp only [fetchMore, fetchMoreMain, hpa, hnan, hg, cond_false, hl, hls]

/-- The splice step, written out. -/
theorem lookaheadStep_eq {σ : Store α} {L : Listing α} (amt : JSNum) {lr : Nat}
    (hlr : (Listing._clone σ L).2.lookRef = some lr) :
    lookaheadStep σ L amt = some
      ((Listing._clone σ L).1.setObj lr
          (.arr (((Listing._clone σ L).1.readArr lr).drop
            (amt.toCount ((Listing._clone σ L).1.readArr lr).length))),
        { (Listing._clone σ L).2 with items := (Listing._clone σ L).2.items ++ ((Listing._clone σ L).1.readArr lr).take (amt.toCount ((Listing._clone σ L).1.readArr lr).length) },
        amt.subNat (((Listing._clone σ L).1.readArr lr).take
          (amt.toCount ((Listing._clone σ L).1.readArr lr).length)).length) := by
  simp only [lookaheadStep, hlr]

/-- Replacing the lookahead array's contents (and the items) keeps a Listing
well-formed: `wf` only inspects the reference structure. -/
theorem wf_setLook {σ : Store α} {L : Listing α} {lr : Nat}
    (hw : L.wf σ = true) (hlr : L.lookRef = some lr) (ys : List α) (xs : List α) :
    ({ L with items := ys } : Listing α).wf (σ.setObj lr (.arr xs)) = true := by
  obtain ⟨b, a, hq⟩ := Listing.wf_query hw
  obtain ⟨xs0, hx⟩ := Listing.wf_look hw hlr
  have hlt : lr < σ.size := Store.lt_size_of_getObj hx
  have hne : L.queryRef ≠ lr := by
    intro he
    rw [he, hx] at hq
    cases hq
  refine Listing.wf_mk ⟨b, a, ?_⟩ ?_ ?_
  · rw [Store.getObj_setObj_ne σ _ hne]
    exact hq
  · intro r hr
    rw [Option.mem_def] at hr
    have : r = lr := by
      rw [show ({ L with items := ys } : Listing α).lookRef = L.lookRef from rfl, hlr]
        at hr
      exact (Option.some.injEq _ _).mp hr.symm
    subst this
    exact ⟨xs, Store.getObj_setObj_self σ _ hlt⟩
  · intro m hm
    rw [Option.mem_def] at hm
    obtain ⟨c, ids, hc, hi⟩ := Listing.wf_more hw
      (show L.moreRef = some m from hm)
    have hnm : m ≠ lr := by
      intro he
      rw [he, hx] at hc
      cases hc
    have hnc : c ≠ lr := by
      intro he
      rw [he, hx] at hi
      cases hi
    exact ⟨c, ids, by rw [Store.getObj_setObj_ne σ _ hnm]; exact hc,
      by rw [Store.getObj_setObj_ne σ _ hnc]; exact hi⟩

end Snoo

namespace Snoo

theorem regularStep_comment_stash (σ : Store α) (L : Listing α) (amt : JSNum)
    (append : Bool) (resp : Page α)
    (hcl : L.isCommentList = true) (hlt : amt.ltNat resp.items.length = true) :
    ∃ lr, (regularStep σ L amt append resp).2.lookRef = some lr ∧
      (regularStep σ L amt append resp).2.items =
        (mergedItems σ L append resp).take
          (amt.toCount (mergedItems σ L append resp).length) ∧
      (regularStep σ L amt append resp).1.readArr lr =
        (mergedItems σ L append resp).drop
          (amt.toCount (mergedItems σ L append resp).length) := by
  have hitems := Listing.clone_items σ L
  have hq := Listing.clone_readQry σ L
  simp only [regularStep, hcl, cond_true, hlt]
  simp only [mergedItems, ← hq, ← hitems]
  rcases append <;> simp only [cond_true, cond_false] <;>
    rcases htr : ((Listing._clone σ L).1.readQry
      (Listing._clone σ L).2.queryRef).1.truthy <;>
    simp only [htr, cond_true, cond_false] <;>
    rcases hm : (Listing._clone σ L).2.moreRef <;> (try simp only [hm]) <;>
    first
      | exact ⟨_, rfl, trivial, Store.readArr_alloc_self _ _⟩
      | exact ⟨_, rfl, rfl, Store.readArr_alloc_self _ _⟩

theorem regularStep_regular_no_stash (σ : Store α) (L : Listing α) (amt : JSNum)
    (append : Bool) (resp : Page α) (hcl : L.isCommentList = false) :
    (regularStep σ L amt append resp).2.lookRef.isSome = L.lookRef.isSome := by
  have hlk := Listing.clone_lookRef_isSome σ L
  simp only [regularStep, hcl, cond_false]
  rcases append <;> simp only [cond_true, cond_false] <;>
    rcases htr : ((Listing._clone σ L).1.readQry
      (Listing._clone σ L).2.queryRef).1.truthy <;>
    simp only [htr, cond_true, cond_false] <;>
    exact hlk

theorem fetchMore_lookahead_reuse (env : MoreEnv α) (f : Nat)
    (script : List (Page α)) {σ : Store α}
    {L : Listing α} {opts : RawOpts} {r0 : Nat} {n : Int}
    (hw : L.wf σ = true) (hl : L.lookRef = some r0)
    (hpa : (parseOptions opts).amount = some (.fin n)) (hpos : 0 < n)
    (hcnt : n.toNat ≤ (σ.readArr r0).length) (hfin : L.isFinished σ = false) :
    ∃ res, fetchMore env (f + 2) σ L opts script = .ok res ∧
      res.log = [] ∧ res.rest = script ∧
      res.listing.items = L.items ++ (σ.readArr r0).take n.toNat ∧
      ∃ lr2, res.listing.lookRef = some lr2 ∧
        res.store.readArr lr2 = (σ.readArr r0).drop n.toNat := by
  have hle0 : (JSNum.fin n).le0 = false := by
    simp [JSNum.le0]
    omega
  have hg : ((JSNum.fin n).le0 || L.isFinished σ) = false := by
    rw [hle0, hfin]
    rfl
  obtain ⟨lr, hlr, hread⟩ := Listing.clone_look_read σ L hw hl
  have hls := lookaheadStep_eq (σ := σ) (L := L) (.fin n) hlr
  rw [hread] at hls
  have hcut : (JSNum.fin n).toCount (σ.readArr r0).length = n.toNat := by
    simp [JSNum.toCount]
    omega
  rw [hcut] at hls
  have htk : ((σ.readArr r0).take n.toNat).length = n.toNat := by
    rw [List.length_take]
    omega
  rw [htk] at hls
  have hsub : (JSNum.fin n).subNat n.toNat = .fin 0 := by
    simp only [JSNum.subNat, JSNum.fin.injEq]
    omega
  rw [hsub] at hls
  have hstep := fetchMore_lookahead_step env (f + 1) script hpa rfl hg hl hls
  have hfin2 : fetchMore env (f + 1)
      ((Listing._clone σ L).1.setObj lr (.arr ((σ.readArr r0).drop n.toNat)))
      { (Listing._clone σ L).2 with items := (Listing._clone σ L).2.items ++ (σ.readArr r0).take n.toNat }
      (.num (.fin 0)) script = .ok
      { listing := (Listing._clone
            ((Listing._clone σ L).1.setObj lr (.arr ((σ.readArr r0).drop n.toNat)))
            { (Listing._clone σ L).2 with items := (Listing._clone σ L).2.items ++ (σ.readArr r0).take n.toNat }).2,
        store := (Listing._clone
            ((Listing._clone σ L).1.setObj lr (.arr ((σ.readArr r0).drop n.toNat)))
            { (Listing._clone σ L).2 with items := (Listing._clone σ L).2.items ++ (σ.readArr r0).take n.toNat }).1,
        log := [], rest := script } := by
    exact fetchMore_finish rfl rfl (by simp [JSNum.le0])
  refine ⟨_, by rw [hstep]; exact hfin2, rfl, rfl, ?_, ?_⟩
  · rw [Listing.clone_items, Listing.clone_items]
  · have hwP := Listing.clone_wf σ L hw
    have hw2 := wf_setLook hwP hlr
      ((Listing._clone σ L).2.items ++ (σ.readArr r0).take n.toNat)
      ((σ.readArr r0).drop n.toNat)
    obtain ⟨xs0, hx0⟩ := Listing.wf_look hwP hlr
    have hltP : lr < (Listing._clone σ L).1.size := Store.lt_size_of_getObj hx0
    obtain ⟨lr2, h1, h2⟩ := Listing.clone_look_read
      ((Listing._clone σ L).1.setObj lr (.arr ((σ.readArr r0).drop n.toNat)))
      { (Listing._clone σ L).2 with items := (Listing._clone σ L).2.items ++ (σ.readArr r0).take n.toNat }
      hw2 (show ({ (Listing._clone σ L).2 with items := (Listing._clone σ L).2.items ++ (σ.readArr r0).take n.toNat } : Listing α).lookRef = some lr from hlr)
    refine ⟨lr2, h1, ?_⟩
    rw [h2]
    simp [Store.readArr, Store.getObj_setObj_self _ _ hltP]

end Snoo

namespace Snoo

/-- **C6** (amended): the surplus-to-lookahead stash of `_fetchMoreRegular`
is gated on `this._isCommentList`, not on being a regular (non-comment)
Listing.  (1) On a *comment-flagged* Listing, when the page returns more
items than the requested amount, the merge step stores the portion of the
merged array past index `amount` in a freshly allocated
`_cachedLookahead` and keeps only the first `amount` items — nothing is
discarded.  (2) On a non-comment Listing no stash ever happens: the merge
step leaves the clone's lookahead state exactly as the original's (the
over-delivered items all stay in the item array, as the counterexample
shows concretely).  (3) Lookahead reuse holds as claimed: a `fetchMore`
whose (positive, finite) amount is satisfiable entirely from the cached
lookahead resolves without issuing any network request and without
consuming the response script, moving `amount` items from the lookahead
onto the tail and leaving the rest in the (cloned) lookahead. -/
theorem c6_lookahead_stash_and_reuse (env : MoreEnv α) (f : Nat) (σ : Store α)
    (L : Listing α) (amt : JSNum) (append : Bool) (resp : Page α) (opts : RawOpts)
    (script : List (Page α)) (r0 : Nat) (n : Int)
    (hw : L.wf σ = true) :
    (L.isCommentList = true → amt.ltNat resp.items.length = true →
      ∃ lr, (regularStep σ L amt append resp).2.lookRef = some lr ∧
        (regularStep σ L amt append resp).2.items =
          (mergedItems σ L append resp).take
            (amt.toCount (mergedItems σ L append resp).length) ∧
        (regularStep σ L amt append resp).1.readArr lr =
          (mergedItems σ L append resp).drop
            (amt.toCount (mergedItems σ L append resp).length)) ∧
    (L.isCommentList = false →
      (regularStep σ L amt append resp).2.lookRef.isSome = L.lookRef.isSome) ∧
    (L.lookRef = some r0 → (parseOptions opts).amount = some (.fin n) → 0 < n →
      n.toNat ≤ (σ.readArr r0).length → L.isFinished σ = false →
      ∃ res, fetchMore env (f + 2) σ L opts script = .ok res ∧
        res.log = [] ∧ res.rest = script ∧
        res.listing.items = L.items ++ (σ.readArr r0).take n.toNat ∧
        ∃ lr2, res.listing.lookRef = some lr2 ∧
          res.store.readArr lr2 = (σ.readArr r0).drop n.toNat) :=
  ⟨fun hcl hlt => regularStep_comment_stash σ L amt append resp hcl hlt,
    fun hcl => regularStep_regular_no_stash σ L amt append resp hcl,
    fun hl hpa hpos hcnt hfin =>
      fetchMore_lookahead_reuse env f script hw hl hpa hpos hcnt hfin⟩

/-- Counterexample to C6 as stated: a concrete *regular (non-comment)*
Listing whose page fetch returns three items against a requested amount of
one.  No surplus is stashed — the resulting Listing has no lookahead buffer
at all and every over-delivered item sits in the item array. -/
theorem c6_counterexample :
    ∃ res, fetchMore witEnv 2 (⟨[.qry .null (.val "x")]⟩ : Store Nat) witListing
        (.obj (some (.fin 1)) none none) [⟨[4, 5, 6], .undef, .val "y", none⟩]
        = .ok res ∧
      witListing.isCommentList = false ∧
      (JSNum.fin 1).ltNat ([4, 5, 6] : List Nat).length = true ∧
      res.listing.lookRef = none ∧
      res.listing.items = [1, 2, 3, 4, 5, 6] := by
  refine ⟨⟨⟨[1, 2, 3, 4, 5, 6], 2, some "r/all/hot", "get", false, none, none⟩,
      ⟨[.qry .null (.val "x"), .qry .null (.val "y"), .qry .null (.val "y")]⟩,
      [.page (some "r/all/hot") "get" none (some "x") (some (.fin 1))], []⟩,
    by rfl, rfl, by decide, rfl, rfl⟩

def c6Listing : Listing Nat :=
  { items := [1], queryRef := 0, uri := some "comments/abc", mthd := "get",
    isCommentList := true, moreRef := none, lookRef := some 1 }

def c6Store : Store Nat := ⟨[.qry .null .null, .arr [7, 8, 9]]⟩

/-- Witness for C6 (amended) at concrete inputs: the stash of a 3-item page
against amount 1 on a comment-flagged Listing, and the network-free reuse of
a cached `[7, 8, 9]` lookahead by a `fetchMore` of amount 2. -/
theorem c6_witness :
    (∃ lr, (regularStep c6Store c6Listing (.fin 1) true
        ⟨[4, 5, 6], .undef, .undef, none⟩).2.lookRef = some lr ∧
      (regularStep c6Store c6Listing (.fin 1) true
        ⟨[4, 5, 6], .undef, .undef, none⟩).2.items =
        (mergedItems c6Store c6Listing true ⟨[4, 5, 6], .undef, .undef, none⟩).take
          ((JSNum.fin 1).toCount (mergedItems c6Store c6Listing true
            ⟨[4, 5, 6], .undef, .undef, none⟩).length) ∧
      (regularStep c6Store c6Listing (.fin 1) true
        ⟨[4, 5, 6], .undef, .undef, none⟩).1.readArr lr =
        (mergedItems c6Store c6Listing true ⟨[4, 5, 6], .undef, .undef, none⟩).drop
          ((JSNum.fin 1).toCount (mergedItems c6Store c6Listing true
            ⟨[4, 5, 6], .undef, .undef, none⟩).length)) ∧
    (∃ res, fetchMore witEnv 2 c6Store c6Listing (.num (.fin 2))
        ([] : List (Page Nat)) = .ok res ∧
      res.log = [] ∧ res.rest = [] ∧
      res.listing.items = c6Listing.items ++ (c6Store.readArr 1).take (2 : Int).toNat ∧
      ∃ lr2, res.listing.lookRef = some lr2 ∧
        res.store.readArr lr2 = (c6Store.readArr 1).drop (2 : Int).toNat) :=
  ⟨(c6_lookahead_stash_and_reuse witEnv 0 c6Store c6Listing (.fin 1) true
      ⟨[4, 5, 6], .undef, .undef, none⟩ (.num (.fin 2)) [] 1 2
      (by decide)).1 rfl (by decide),
    (c6_lookahead_stash_and_reuse witEnv 0 c6Store c6Listing (.fin 1) true
      ⟨[4, 5, 6], .undef, .undef, none⟩ (.num (.fin 2)) [] 1 2
      (by decide)).2.2 rfl rfl (by decide) (by decide) (by decide)⟩

end Snoo

namespace Snoo

theorem readQry_setObj_ne (σ : Store α) {r q : Nat} (o : HObj α) (h : q ≠ r) :
    (σ.setObj r o).readQry q = σ.readQry q :=
  Store.readQry_congr (Store.getObj_setObj_ne σ o h)

theorem readQry_setObj_self (σ : Store α) {r : Nat} (b a : Cursor) (h : r < σ.size) :
    (σ.setObj r (.qry b a)).readQry r = (b, a) := by
  simp [Store.readQry, Store.getObj_setObj_self σ _ h]

/-- Replacing the `_query` object's cursors (and the items) keeps a Listing
well-formed. -/
theorem wf_setQry {σ : Store α} {L : Listing α} (hw : L.wf σ = true)
    (b a : Cursor) (ys : List α) :
    ({ L with items := ys } : Listing α).wf (σ.setObj L.queryRef (.qry b a)) = true := by
  obtain ⟨b0, a0, hq⟩ := Listing.wf_query hw
  have hlt : L.queryRef < σ.size := Store.lt_size_of_getObj hq
  refine Listing.wf_mk ⟨b, a, Store.getObj_setObj_self σ _ hlt⟩ ?_ ?_
  · intro r hr
    rw [Option.mem_def] at hr
    obtain ⟨xs, hx⟩ := Listing.wf_look hw (show L.lookRef = some r from hr)
    have hne : r ≠ L.queryRef := by
      intro he
      rw [he, hq] at hx
      cases hx
    exact ⟨xs, by rw [Store.getObj_setObj_ne σ _ hne]; exact hx⟩
  · intro m hm
    rw [Option.mem_def] at hm
    obtain ⟨c, ids, hc, hi⟩ := Listing.wf_more hw (show L.moreRef = some m from hm)
    have hnm : m ≠ L.queryRef := by
      intro he
      rw [he, hq] at hc
      cases hc
    have hnc : c ≠ L.queryRef := by
      intro he
      rw [he, hq] at hi
      cases hi
    exact ⟨c, ids, by rw [Store.getObj_setObj_ne σ _ hnm]; exact hc,
      by rw [Store.getObj_setObj_ne σ _ hnc]; exact hi⟩

/-- The item array produced by the comment-strategy merge with
`append = true`. -/
theorem commentsStep_items {σ : Store α} {L : Listing α} {amt : JSNum}
    {mi : List α} {S : Store α × Listing α}
    (hcs : commentsStep σ L amt true mi = some S) :
    S.2.items = L.items ++ mi := by
  simp only [commentsStep, cond_true] at hcs
  rcases hm2 : (Listing._clone σ L).2.moreRef with _ | cm <;> simp only [hm2] at hcs
  · exact absurd hcs (by simp)
  · rw [← (Option.some.injEq _ _).mp hcs]
    simp only []
    rw [Listing.clone_items]

end Snoo

namespace Snoo

/-- Order preservation (C3 part A): an `append = true` fetch on a Listing
that is regular or carries a More stub never drops or reorders the
materialized items — the result's items are the original block with new
items attached at the head (reverse pagination only) and at the tail. -/
theorem fetchMore_order_preserved {env : MoreEnv α} (fuel : Nat) :
    ∀ {σ : Store α} {L : Listing α} {opts : RawOpts} {script : List (Page α)}
      {r : FetchOk α},
      fetchMore env fuel σ L opts script = .ok r →
      L.wf σ = true →
      (L.isCommentList = false ∨ L.moreRef.isSome = true) →
      (parseOptions opts).append = true →
      ∃ pre post, r.listing.items = pre ++ L.items ++ post ∧
        ((σ.readQry L.queryRef).1.truthy = false → pre = []) := by
  induction fuel with
  | zero =>
    intro σ L opts script r h hw hreg happ
    obtain ⟨amt, hpa, hnan, hbr⟩ := fetchMore_inv h
    rcases hbr with ⟨hg, hr⟩ | ⟨hg, hlook | hcom | hreg'⟩
    · refine ⟨[], [], ?_, fun _ => rfl⟩
      rw [hr]
      simp only [happ, cond_true, List.nil_append, List.append_nil]
      exact Listing.clone_items σ L
    · obtain ⟨r0, S, f, _, hf, _⟩ := hlook
      exact absurd hf (by omega)
    · obtain ⟨hlk, m0, mi, mlog, S, hmr, hmf, hcs, hr⟩ := hcom
      rw [happ] at hcs
      refine ⟨[], mi, ?_, fun _ => rfl⟩
      rw [hr]
      simp only [List.nil_append]
      exact commentsStep_items hcs
    · obtain ⟨hl1, hm1, f, resp, script', r', hf, hrest⟩ := hreg'
      exact absurd hf (by omega)
  | succ f ih =>
    intro σ L opts script r h hw hreg happ
    obtain ⟨amt, hpa, hnan, hbr⟩ := fetchMore_inv h
    rcases hbr with ⟨hg, hr⟩ | ⟨hg, hlook | hcom | hreg'⟩
    · refine ⟨[], [], ?_, fun _ => rfl⟩
      rw [hr]
      simp only [happ, cond_true, List.nil_append, List.append_nil]
      exact Listing.clone_items σ L
    · -- lookahead splice branch
      obtain ⟨r0, S, f', hl, hf, hls, hrec⟩ := hlook
      have hf' : f' = f := by omega
      subst hf'
      obtain ⟨lr, hlr, hread⟩ := Listing.clone_look_read σ L hw hl
      have hexp := lookaheadStep_eq (σ := σ) (L := L) amt hlr
      rw [hls] at hexp
      have hS := (Option.some.injEq _ _).mp hexp
      rw [hS] at hrec
      have hwP := Listing.clone_wf σ L hw
      obtain ⟨bq, aq, hq⟩ := Listing.wf_query hwP
      obtain ⟨xs0, hx0⟩ := Listing.wf_look hwP hlr
      have hne : (Listing._clone σ L).2.queryRef ≠ lr := by
        intro he
        rw [← he, hq] at hx0
        cases hx0
      have hw2 := wf_setLook hwP hlr
        ((Listing._clone σ L).2.items ++ ((Listing._clone σ L).1.readArr lr).take
          (amt.toCount ((Listing._clone σ L).1.readArr lr).length))
        (((Listing._clone σ L).1.readArr lr).drop
          (amt.toCount ((Listing._clone σ L).1.readArr lr).length))
      have hqbridge : (((Listing._clone σ L).1.setObj lr
            (.arr (((Listing._clone σ L).1.readArr lr).drop
              (amt.toCount ((Listing._clone σ L).1.readArr lr).length)))).readQry
            (Listing._clone σ L).2.queryRef)
          = σ.readQry L.queryRef := by
        rw [readQry_setObj_ne _ _ hne]
        exact Listing.clone_readQry σ L
      have hreg2 : ((Listing._clone σ L).2.isCommentList = false ∨
          (Listing._clone σ L).2.moreRef.isSome = true) := by
        rcases hreg with hc | hm
        · exact Or.inl (by rw [Listing.clone_isCommentList]; exact hc)
        · exact Or.inr (by rw [Listing.clone_moreRef_isSome]; exact hm)
      obtain ⟨pre, post, hitems, hpre⟩ := ih hrec hw2 hreg2 rfl
      refine ⟨pre, ((Listing._clone σ L).1.readArr lr).take
          (amt.toCount ((Listing._clone σ L).1.readArr lr).length) ++ post, ?_, ?_⟩
      · rw [hitems]
        simp only []
        rw [Listing.clone_items]
        simp [List.append_assoc]
      · intro hfalse
        refine hpre ?_
        rw [show ({ (Listing._clone σ L).2 with items := (Listing._clone σ L).2.items ++ ((Listing._clone σ L).1.readArr lr).take (amt.toCount ((Listing._clone σ L).1.readArr lr).length) } : Listing α).queryRef = (Listing._clone σ L).2.queryRef from rfl]
        rw [hqbridge]
        exact hfalse
    · -- comment-stub branch
      obtain ⟨hlk, m0, mi, mlog, S, hmr, hmf, hcs, hr⟩ := hcom
      rw [happ] at hcs
      refine ⟨[], mi, ?_, fun _ => rfl⟩
      rw [hr]
      simp only [List.nil_append]
      exact commentsStep_items hcs
    · -- regular page branch
      obtain ⟨hl1, hm1, f', resp, script', r', hf, hs, hrec, hr⟩ := hreg'
      have hf' : f' = f := by omega
      subst hf'
      have hcl : L.isCommentList = false := by
        rcases hreg with hc | hm
        · exact hc
        · rw [hm1] at hm; cases hm
      have hwP := Listing.clone_wf σ L hw
      obtain ⟨bq, aq, hq⟩ := Listing.wf_query hwP
      have hqlt : (Listing._clone σ L).2.queryRef < (Listing._clone σ L).1.size :=
        Store.lt_size_of_getObj hq
      rw [happ] at hrec
      rw [hr]
      simp only [regularStep, hcl, cond_false, cond_true] at hrec
      rcases htr : ((Listing._clone σ L).1.readQry
          (Listing._clone σ L).2.queryRef).1.truthy <;>
        simp only [htr, cond_true, cond_false] at hrec
      · -- forward: append at the tail, new `before` is null
        have hw2 := wf_setQry hwP Cursor.null resp.rAfter
          ((Listing._clone σ L).2.items ++ resp.items)
        obtain ⟨pre, post, hitems, hpre⟩ := ih hrec hw2
          (Or.inl (by rw [Listing.clone_isCommentList]; exact hcl)) rfl
        have hpre0 : pre = [] := by
          refine hpre ?_
          rw [show ({ (Listing._clone σ L).2 with items := (Listing._clone σ L).2.items ++ resp.items } : Listing α).queryRef = (Listing._clone σ L).2.queryRef from rfl]
          rw [readQry_setObj_self _ _ _ hqlt]
          rfl
        refine ⟨[], resp.items ++ post, ?_, fun _ => rfl⟩
        simp only []
        rw [hitems, hpre0]
        simp only [List.nil_append]
        rw [Listing.clone_items]
        simp [List.append_assoc]
      · -- reverse: the page is prepended
        have hw2 := wf_setQry hwP resp.rBefore Cursor.null
          (resp.items ++ (Listing._clone σ L).2.items)
        obtain ⟨pre, post, hitems, hpre⟩ := ih hrec hw2
          (Or.inl (by rw [Listing.clone_isCommentList]; exact hcl)) rfl
        refine ⟨pre ++ resp.items, post, ?_, ?_⟩
        · simp only []
          rw [hitems]
          rw [Listing.clone_items]
          simp [List.append_assoc]
        · intro hfalse
          rw [← Listing.clone_readQry σ L] at hfalse
          rw [hfalse] at htr
          cases htr
  
end Snoo

namespace Snoo

/-- The forward/regular fetch loop collapsed to its observable effect on a
regular Listing whose `before` cursor is `null`: stop when the amount is
exhausted or the Listing is finished (`!uri || after === null`), otherwise
consume one page, append its items, adopt its `after` cursor and recurse
with the amount reduced by the page length.  Used to relate a chain of
`fetchMore` calls to a single `fetchAll`. -/
def regularRunBody (uriT : Bool)
    (recur : JSNum → List α → Cursor → List (Page α) →
      Except Err (List α × Cursor × List (Page α)))
    (amt : JSNum) (items : List α) (after : Cursor) (s : List (Page α)) :
    Except Err (List α × Cursor × List (Page α)) :=
  bif amt.le0 || (!uriT || (after == Cursor.null)) then .ok (items, after, s)
  else
    match s with
    | [] => .error .scriptEnd
    | resp :: s' =>
      recur (amt.subNat resp.items.length) (items ++ resp.items) resp.rAfter s'

def regularRun (uriT : Bool) :
    Nat → JSNum → List α → Cursor → List (Page α) →
    Except Err (List α × Cursor × List (Page α))
  | 0, amt, items, after, s =>
    regularRunBody uriT (fun _ _ _ _ => .error .outOfFuel) amt items after s
  | f + 1, amt, items, after, s =>
    regularRunBody uriT (regularRun uriT f) amt items after s

theorem regularRun_mono (uriT : Bool) :
    ∀ (f : Nat) {g : Nat} {amt : JSNum} {items : List α} {after : Cursor}
      {s : List (Page α)} {v : List α × Cursor × List (Page α)},
      regularRun uriT f amt items after s = .ok v → f ≤ g →
      regularRun (α := α) uriT g amt items after s = .ok v := by
  intro f
  induction f with
  | zero =>
    intro g amt items after s v h _
    simp only [regularRun, regularRunBody] at h
    rcases hg1 : (amt.le0 || (!uriT || (after == Cursor.null))) <;>
      simp only [hg1, cond_true, cond_false] at h
    · rcases s with _ | ⟨resp, s'⟩
      · exact absurd h (by simp)
      · exact absurd h (by simp)
    · rcases g with _ | g' <;>
        simp only [regularRun, regularRunBody, hg1, cond_true] <;> exact h
  | succ f ih =>
    intro g amt items after s v h hle
    simp only [regularRun, regularRunBody] at h
    rcases hg1 : (amt.le0 || (!uriT || (after == Cursor.null))) <;>
      simp only [hg1, cond_true, cond_false] at h
    · rcases s with _ | ⟨resp, s'⟩
      · exact absurd h (by simp)
      · rcases g with _ | g'
        · omega
        · simp only [regularRun, regularRunBody, hg1, cond_false]
          exact ih h (by omega)
    · rcases g with _ | g' <;>
        simp only [regularRun, regularRunBody, hg1, cond_true] <;> exact h

theorem regularRun_chain (uriT : Bool) :
    ∀ (f1 : Nat) {f2 : Nat} {amt : JSNum} {items i1 i2 : List α}
      {after c1 c2 : Cursor} {s s1 s2 : List (Page α)},
      regularRun uriT f1 amt items after s = .ok (i1, c1, s1) →
      regularRun uriT f2 .posInf i1 c1 s1 = .ok (i2, c2, s2) →
      regularRun (α := α) uriT (f1 + f2) .posInf items after s = .ok (i2, c2, s2) := by
  intro f1
  induction f1 with
  | zero =>
    intro f2 amt items i1 i2 after c1 c2 s s1 s2 h1 h2
    simp only [regularRun, regularRunBody] at h1
    rcases hg1 : (amt.le0 || (!uriT || (after == Cursor.null))) <;>
      simp only [hg1, cond_true, cond_false] at h1
    · rcases s with _ | ⟨resp, s'⟩
      · exact absurd h1 (by simp)
      · exact absurd h1 (by simp)
    · obtain ⟨he1, he2, he3⟩ :
          items = i1 ∧ after = c1 ∧ s = s1 := by
        have := (Except.ok.injEq _ _).mp h1
        exact ⟨congrArg Prod.fst this, congrArg (fun p => p.2.1) this,
          congrArg (fun p => p.2.2) this⟩
      rw [Nat.zero_add, he1, he2, he3]
      exact h2
  | succ f ih =>
    intro f2 amt items i1 i2 after c1 c2 s s1 s2 h1 h2
    simp only [regularRun, regularRunBody] at h1
    rcases hg1 : (amt.le0 || (!uriT || (after == Cursor.null))) <;>
      simp only [hg1, cond_true, cond_false] at h1
    · rcases s with _ | ⟨resp, s'⟩
      · exact absurd h1 (by simp)
      · rw [show f + 1 + f2 = (f + f2) + 1 from by omega]
        have hg2 : ((JSNum.posInf.le0 : Bool) || (!uriT || (after == Cursor.null)))
            = false := by
          rcases Bool.or_eq_false_iff.mp hg1 with ⟨-, hdone⟩
          simp [JSNum.le0, hdone]
        simp only [regularRun, regularRunBody, hg2, cond_false]
        have : JSNum.posInf.subNat resp.items.length = JSNum.posInf := rfl
        rw [this]
        exact ih h1 h2
    · obtain ⟨he1, he2, he3⟩ :
          items = i1 ∧ after = c1 ∧ s = s1 := by
        have := (Except.ok.injEq _ _).mp h1
        exact ⟨congrArg Prod.fst this, congrArg (fun p => p.2.1) this,
          congrArg (fun p => p.2.2) this⟩
      rw [he1, he2, he3]
      exact regularRun_mono uriT f2 h2 (by omega)

end Snoo

namespace Snoo

theorem regularRun_finish_case {σ : Store α} {L : Listing α} {s : List (Page α)}
    {amt : JSNum} (fuel : Nat)
    (hw : L.wf σ = true) (hcl : L.isCommentList = false) (hm : L.moreRef = none)
    (hlk : L.lookRef = none) (hb : (σ.readQry L.queryRef).1 = Cursor.null)
    (hg : (amt.le0 || L.isFinished σ) = true) :
    regularRun (uriTruthy L.uri) fuel amt L.items ((σ.readQry L.queryRef).2) s
      = .ok ((Listing._clone σ L).2.items,
          ((Listing._clone σ L).1.readQry (Listing._clone σ L).2.queryRef).2, s) ∧
    (Listing._clone σ L).2.isCommentList = false ∧
    (Listing._clone σ L).2.moreRef = none ∧
    (Listing._clone σ L).2.lookRef = none ∧
    (Listing._clone σ L).2.uri = L.uri ∧
    ((Listing._clone σ L).1.readQry (Listing._clone σ L).2.queryRef).1 = Cursor.null ∧
    (Listing._clone σ L).2.wf (Listing._clone σ L).1 = true := by
  have hfin : L.isFinished σ =
      (!(uriTruthy L.uri) || ((σ.readQry L.queryRef).2 == Cursor.null)) := by
    simp [Listing.isFinished, hcl, hb]
  have hguard : (amt.le0 ||
      (!(uriTruthy L.uri) || ((σ.readQry L.queryRef).2 == Cursor.null))) = true := by
    rw [← hfin]
    exact hg
  refine ⟨?_, by rw [Listing.clone_isCommentList]; exact hcl,
    Listing.clone_moreRef_none σ L hm, Listing.clone_lookRef_none σ L hlk,
    Listing.clone_uri σ L, by rw [Listing.clone_readQry]; exact hb,
    Listing.clone_wf σ L hw⟩
  rcases fuel with _ | f <;>
    simp only [regularRun, regularRunBody, hguard, cond_true] <;>
    rw [Listing.clone_items, Listing.clone_readQry]

theorem regularRun_adequate {env : MoreEnv α} (fuel : Nat) :
    ∀ {σ : Store α} {L : Listing α} {opts : RawOpts} {s : List (Page α)}
      {r : FetchOk α} {amt : JSNum},
      fetchMore env fuel σ L opts s = .ok r →
      L.wf σ = true →
      L.isCommentList = false → L.moreRef = none → L.lookRef = none →
      (σ.readQry L.queryRef).1 = Cursor.null →
      (parseOptions opts).amount = some amt →
      (parseOptions opts).append = true →
      regularRun (uriTruthy L.uri) fuel amt L.items ((σ.readQry L.queryRef).2) s
        = .ok (r.listing.items, (r.store.readQry r.listing.queryRef).2, r.rest) ∧
      r.listing.isCommentList = false ∧ r.listing.moreRef = none ∧
      r.listing.lookRef = none ∧ r.listing.uri = L.uri ∧
      (r.store.readQry r.listing.queryRef).1 = Cursor.null ∧
      r.listing.wf r.store = true := by
  induction fuel with
  | zero =>
    intro σ L opts s r amt h hw hcl hm hlk hb hpa happ
    obtain ⟨amt', hpa', hnan, hbr⟩ := fetchMore_inv h
    have hae : amt = amt' := by
      rw [hpa] at hpa'
      exact (Option.some.injEq _ _).mp hpa'
    subst hae
    rcases hbr with ⟨hg, hr⟩ | ⟨hg, hlook | hcom | hreg'⟩
    · rw [hr]
      simp only [happ, cond_true]
      exact regularRun_finish_case 0 hw hcl hm hlk hb hg
    · obtain ⟨r0, S, f, hl', _⟩ := hlook
      rw [hlk] at hl'
      cases hl'
    · obtain ⟨hlk', m0, mi, mlog, S, hmr, _⟩ := hcom
      rw [hm] at hmr
      cases hmr
    · obtain ⟨hl1, hm1, f, resp, script', r', hf, hrest⟩ := hreg'
      exact absurd hf (by omega)
  | succ f ih =>
    intro σ L opts s r amt h hw hcl hm hlk hb hpa happ
    obtain ⟨amt', hpa', hnan, hbr⟩ := fetchMore_inv h
    have hae : amt = amt' := by
      rw [hpa] at hpa'
      exact (Option.some.injEq _ _).mp hpa'
    subst hae
    rcases hbr with ⟨hg, hr⟩ | ⟨hg, hlook | hcom | hreg'⟩
    · rw [hr]
      simp only [happ, cond_true]
      exact regularRun_finish_case (f + 1) hw hcl hm hlk hb hg
    · obtain ⟨r0, S, f', hl', _⟩ := hlook
      rw [hlk] at hl'
      cases hl'
    · obtain ⟨hlk', m0, mi, mlog, S, hmr, _⟩ := hcom
      rw [hm] at hmr
      cases hmr
    · obtain ⟨hl1, hm1, f', resp, script', r', hf, hs, hrec, hr⟩ := hreg'
      have hf' : f' = f := by omega
      subst hf'
      have hwP := Listing.clone_wf σ L hw
      obtain ⟨bq, aq, hq⟩ := Listing.wf_query hwP
      have hqlt : (Listing._clone σ L).2.queryRef < (Listing._clone σ L).1.size :=
        Store.lt_size_of_getObj hq
      have htr : ((Listing._clone σ L).1.readQry
          (Listing._clone σ L).2.queryRef).1.truthy = false := by
        rw [Listing.clone_readQry, hb]
        rfl
      rw [happ] at hrec
      simp only [regularStep, hcl, cond_false, cond_true, htr] at hrec
      have hw2 := wf_setQry hwP Cursor.null resp.rAfter
        ((Listing._clone σ L).2.items ++ resp.items)
      have hb2 : (((Listing._clone σ L).1.setObj (Listing._clone σ L).2.queryRef
          (.qry Cursor.null resp.rAfter)).readQry ({ (Listing._clone σ L).2 with items := (Listing._clone σ L).2.items ++ resp.items } : Listing α).queryRef).1 = Cursor.null := by
        rw [show ({ (Listing._clone σ L).2 with items := (Listing._clone σ L).2.items ++ resp.items } : Listing α).queryRef = (Listing._clone σ L).2.queryRef from rfl]
        rw [readQry_setObj_self _ _ _ hqlt]
      obtain ⟨e1, hp1, hp2, hp3, hp4, hp5, hp6⟩ := ih hrec hw2
        (by rw [show ({ (Listing._clone σ L).2 with items := (Listing._clone σ L).2.items ++ resp.items } : Listing α).isCommentList = (Listing._clone σ L).2.isCommentList from rfl, Listing.clone_isCommentList]; exact hcl)
        (by rw [show ({ (Listing._clone σ L).2 with items := (Listing._clone σ L).2.items ++ resp.items } : Listing α).moreRef = (Listing._clone σ L).2.moreRef from rfl]; exact Listing.clone_moreRef_none σ L hm)
        (by rw [show ({ (Listing._clone σ L).2 with items := (Listing._clone σ L).2.items ++ resp.items } : Listing α).lookRef = (Listing._clone σ L).2.lookRef from rfl]; exact Listing.clone_lookRef_none σ L hlk)
        hb2 rfl rfl
      have hfin : L.isFinished σ =
          (!(uriTruthy L.uri) || ((σ.readQry L.queryRef).2 == Cursor.null)) := by
        simp [Listing.isFinished, hcl, hb]
      have hguard : (amt.le0 ||
          (!(uriTruthy L.uri) || ((σ.readQry L.queryRef).2 == Cursor.null))) = false := by
        rw [← hfin]
        exact hg
      rw [hr, hs]
      simp only [regularRun, regularRunBody, hguard, cond_false]
      rw [show ((uriTruthy ({ (Listing._clone σ L).2 with items := (Listing._clone σ L).2.items ++ resp.items } : Listing α).uri)) = uriTruthy L.uri from by rw [show ({ (Listing._clone σ L).2 with items := (Listing._clone σ L).2.items ++ resp.items } : Listing α).uri = (Listing._clone σ L).2.uri from rfl, Listing.clone_uri]] at e1
      rw [show ({ (Listing._clone σ L).2 with items := (Listing._clone σ L).2.items ++ resp.items } : Listing α).items = (Listing._clone σ L).2.items ++ resp.items from rfl, Listing.clone_items] at e1
      rw [show ({ (Listing._clone σ L).2 with items := (Listing._clone σ L).2.items ++ resp.items } : Listing α).queryRef = (Listing._clone σ L).2.queryRef from rfl] at e1
      rw [readQry_setObj_self _ _ _ hqlt] at e1
      exact ⟨e1, hp1, hp2, hp3, by rw [hp4]; exact Listing.clone_uri σ L, hp5, hp6⟩

end Snoo

namespace Snoo

/-- C3 part B: chaining a partial fetch with an exhaustive one equals a
single `fetchAll`, for a forward-paginated regular Listing (`before`
cursor `null`). -/
theorem fetchMore_chained_eq_fetchAll {env : MoreEnv α} {f1 f2 f3 : Nat}
    {σ : Store α} {L : Listing α} {opts1 opts2 : RawOpts} {s : List (Page α)}
    {r1 r2 r3 : FetchOk α} {amt1 : JSNum} {sk ap : Option Bool}
    (hw : L.wf σ = true) (hcl : L.isCommentList = false) (hm : L.moreRef = none)
    (hlk : L.lookRef = none) (hb : (σ.readQry L.queryRef).1 = Cursor.null)
    (h1 : fetchMore env f1 σ L opts1 s = .ok r1)
    (hpa1 : (parseOptions opts1).amount = some amt1)
    (happ1 : (parseOptions opts1).append = true)
    (h2 : fetchMore env f2 r1.store r1.listing opts2 r1.rest = .ok r2)
    (hpa2 : (parseOptions opts2).amount = some .posInf)
    (happ2 : (parseOptions opts2).append = true)
    (h3 : fetchAll env f3 σ L sk ap s = .ok r3)
    (happ3 : ap.getD true = true) :
    r2.listing.items = r3.listing.items ∧ r2.rest = r3.rest := by
  obtain ⟨e1, q1, q2, q3, q4, q5, q6⟩ :=
    regularRun_adequate f1 h1 hw hcl hm hlk hb hpa1 happ1
  obtain ⟨e2, -⟩ := regularRun_adequate f2 h2 q6 q1 q2 q3 q5 hpa2 happ2
  rw [q4] at e2
  have e12 := regularRun_chain (uriTruthy L.uri) f1 e1 e2
  obtain ⟨e3, -⟩ := regularRun_adequate f3 h3 hw hcl hm hlk hb rfl
    (show (parseOptions (RawOpts.obj (some .posInf) sk ap)).append = true from happ3)
  have e12m := regularRun_mono (uriTruthy L.uri) (f1 + f2) e12
    (Nat.le_add_right _ f3)
  have e3m := regularRun_mono (uriTruthy L.uri) f3 e3
    (show f3 ≤ f1 + f2 + f3 by omega)
  have hok := e12m.symm.trans e3m
  have htup := (Except.ok.injEq _ _).mp hok
  exact ⟨congrArg Prod.fst htup, congrArg (fun p => p.2.2) htup⟩

/-- **C3** (amended): (part A) an `append = true` fetch on a Listing that is
regular (non-comment) *or* carries a More stub preserves the materialized
items as one contiguous block — new items attach at the head only under
reverse pagination (truthy `before` cursor) and otherwise at the tail; for a
comment-flagged Listing without a stub the regular path's splice can move
already-materialized items into the lookahead buffer, as the counterexample
shows.  (part B) For a forward-paginated regular Listing (`before` cursor
`null`), a chained partial `fetchMore` followed by an exhaustive one
produces exactly the item sequence (and leftover script) of a single
`fetchAll`. -/
theorem c3_order_and_chaining (env : MoreEnv α) (σ : Store α) (L : Listing α)
    (hw : L.wf σ = true) :
    (∀ (fuel : Nat) (opts : RawOpts) (script : List (Page α)) (r : FetchOk α),
      fetchMore env fuel σ L opts script = .ok r →
      (L.isCommentList = false ∨ L.moreRef.isSome = true) →
      (parseOptions opts).append = true →
      ∃ pre post, r.listing.items = pre ++ L.items ++ post ∧
        ((σ.readQry L.queryRef).1.truthy = false → pre = [])) ∧
    (∀ (f1 f2 f3 : Nat) (opts1 opts2 : RawOpts) (s : List (Page α))
      (r1 r2 r3 : FetchOk α) (amt1 : JSNum) (sk ap : Option Bool),
      L.isCommentList = false → L.moreRef = none → L.lookRef = none →
      (σ.readQry L.queryRef).1 = Cursor.null →
      fetchMore env f1 σ L opts1 s = .ok r1 →
      (parseOptions opts1).amount = some amt1 →
      (parseOptions opts1).append = true →
      fetchMore env f2 r1.store r1.listing opts2 r1.rest = .ok r2 →
      (parseOptions opts2).amount = some .posInf →
      (parseOptions opts2).append = true →
      fetchAll env f3 σ L sk ap s = .ok r3 →
      ap.getD true = true →
      r2.listing.items = r3.listing.items ∧ r2.rest = r3.rest) :=
  ⟨fun fuel opts script r h hreg happ =>
      fetchMore_order_preserved fuel h hw hreg happ,
    fun _ _ _ _ _ _ _ _ _ _ _ _ hcl hm hlk hb h1 hpa1 happ1 h2 hpa2 happ2 h3 happ3 =>
      fetchMore_chained_eq_fetchAll hw hcl hm hlk hb h1 hpa1 happ1 h2 hpa2 happ2
        h3 happ3⟩

/-- Counterexample to C3 as stated: a comment-flagged Listing without a
More stub is dispatched to the regular strategy, whose comment-list splice
moves the already-materialized items `[2, 3]` out of the item array into
the lookahead buffer — the result of an `append = true` fetch no longer
contains all of the original items `[1, 2, 3]`. -/
theorem c3_counterexample :
    ∃ res, fetchMore witEnv 3 (⟨[.qry .null .null]⟩ : Store Nat)
        ({ items := [1, 2, 3], queryRef := 0, uri := some "comments/abc",
           mthd := "get", isCommentList := true, moreRef := none,
           lookRef := none } : Listing Nat)
        (.obj (some (.fin 1)) none none) [⟨[10, 20], .undef, .val "y", none⟩]
        = .ok res ∧
      (parseOptions (.obj (some (.fin 1)) none none)).append = true ∧
      res.listing.items = [1] ∧
      ¬ ∃ pre post, res.listing.items = pre ++ [1, 2, 3] ++ post := by
  refine ⟨⟨⟨[1], 5, some "comments/abc", "get", true, some 7, some 6⟩,
      ⟨[.qry .null .null, .qry .null (.val "y"), .strs [], .mor 2,
        .arr [2, 3, 10, 20], .qry .null (.val "y"), .arr [2, 3, 10, 20], .mor 2]⟩,
      [.page (some "comments/abc") "get" none none none], []⟩,
    by rfl, rfl, rfl, ?_⟩
  rintro ⟨pre, post, h⟩
  have hlen := congrArg List.length h
  simp [List.length_append] at hlen
  omega

/-- Witness for C3 at concrete inputs: a partial fetch (amount 1) over a
two-page script followed by an exhaustive fetch gives the same items and
leftover script as one `fetchAll`; the amount-1 fetch's result extends the
original items at the tail. -/
theorem c3_witness :
    ∃ resA r1 r2 r3,
      fetchMore witEnv 2 (⟨[.qry .null (.val "x")]⟩ : Store Nat) witListing
          (.obj (some (.fin 1)) none none)
          [⟨[4, 5], .undef, .val "y", none⟩, ⟨[6], .undef, .null, none⟩]
          = .ok resA ∧
        (∃ pre post, resA.listing.items = pre ++ witListing.items ++ post ∧
          (((⟨[.qry .null (.val "x")]⟩ : Store Nat).readQry
              witListing.queryRef).1.truthy = false → pre = [])) ∧
        fetchMore witEnv 2 (⟨[.qry .null (.val "x")]⟩ : Store Nat) witListing
          (.obj (some (.fin 1)) none none)
          [⟨[4, 5], .undef, .val "y", none⟩, ⟨[6], .undef, .null, none⟩]
          = .ok r1 ∧
        fetchMore witEnv 3 r1.store r1.listing (.obj (some .posInf) none none)
          r1.rest = .ok r2 ∧
        fetchAll witEnv 3 (⟨[.qry .null (.val "x")]⟩ : Store Nat) witListing none none
          [⟨[4, 5], .undef, .val "y", none⟩, ⟨[6], .undef, .null, none⟩]
          = .ok r3 ∧
        r2.listing.items = r3.listing.items ∧ r2.rest = r3.rest := by
  have hc3 := c3_order_and_chaining witEnv (⟨[.qry .null (.val "x")]⟩ : Store Nat)
    witListing (by decide)
  have h1 : fetchMore witEnv 2 (⟨[.qry .null (.val "x")]⟩ : Store Nat) witListing
      (.obj (some (.fin 1)) none none)
      [⟨[4, 5], .undef, .val "y", none⟩, ⟨[6], .undef, .null, none⟩]
      = .ok ⟨⟨[1, 2, 3, 4, 5], 2, some "r/all/hot", "get", false, none, none⟩,
          ⟨[.qry .null (.val "x"), .qry .null (.val "y"), .qry .null (.val "y")]⟩,
          [.page (some "r/all/hot") "get" none (some "x") (some (.fin 1))],
          [⟨[6], .undef, .null, none⟩]⟩ := by rfl
  have h2 : fetchMore witEnv 3
      (⟨[.qry .null (.val "x"), .qry .null (.val "y"), .qry .null (.val "y")]⟩
        : Store Nat)
      (⟨[1, 2, 3, 4, 5], 2, some "r/all/hot", "get", false, none, none⟩ : Listing Nat)
      (.obj (some .posInf) none none) [⟨[6], .undef, .null, none⟩]
      = .ok ⟨⟨[1, 2, 3, 4, 5, 6], 4, some "r/all/hot", "get", false, none, none⟩,
          ⟨[.qry .null (.val "x"), .qry .null (.val "y"), .qry .null (.val "y"),
            .qry .null .null, .qry .null .null]⟩,
          [.page (some "r/all/hot") "get" none (some "y")
            (some (.fin 9007199254740991))], []⟩ := by rfl
  have h3 : fetchAll witEnv 3 (⟨[.qry .null (.val "x")]⟩ : Store Nat) witListing
      none none [⟨[4, 5], .undef, .val "y", none⟩, ⟨[6], .undef, .null, none⟩]
      = .ok ⟨⟨[1, 2, 3, 4, 5, 6], 3, some "r/all/hot", "get", false, none, none⟩,
          ⟨[.qry .null (.val "x"), .qry .null (.val "y"), .qry .null .null,
            .qry .null .null]⟩,
          [.page (some "r/all/hot") "get" none (some "x")
              (some (.fin 9007199254740991)),
            .page (some "r/all/hot") "get" none (some "y")
              (some (.fin 9007199254740991))], []⟩ := by rfl
  refine ⟨_, _, _, _, h1, ?_, h1, h2, h3, ?_⟩
  · exact hc3.1 2 (.obj (some (.fin 1)) none none)
      [⟨[4, 5], .undef, .val "y", none⟩, ⟨[6], .undef, .null, none⟩] _ h1
      (Or.inl rfl) rfl
  · exact hc3.2 2 3 3 (.obj (some (.fin 1)) none none) (.obj (some .posInf) none none)
      [⟨[4, 5], .undef, .val "y", none⟩, ⟨[6], .undef, .null, none⟩] _ _ _
      (.fin 1) none none rfl rfl rfl rfl h1 rfl rfl h2 rfl rfl h3 rfl

end Snoo
